import Mathlib

/-!
Verification development for the portfolio-scanner repository.

The Python sources under `backend/app/` are shallowly embedded:
Python strings become `List Char`, Python floats become `ℚ`
(exact arithmetic; the scoring pipeline only adds and compares
fixed decimal weights), raising code becomes `Option`/`Except`,
and the filesystem / network effects become explicit environment
records that each operation reads and (functionally) updates.
-/

namespace PortfolioScanner

/-- A Python string: an ordered sequence of characters. -/
abbrev PyStr := List Char

/-- Python `str.strip()` whitespace test (ASCII whitespace, by code point). -/
def isWs (c : Char) : Bool :=
  c.toNat = 32 || c.toNat = 9 || c.toNat = 10 || c.toNat = 11 || c.toNat = 12 || c.toNat = 13

/-- Leading-whitespace removal, first half of Python `str.strip()`. -/
def lstripWs (s : PyStr) : PyStr := s.dropWhile isWs

/-- Trailing-whitespace removal, second half of Python `str.strip()`. -/
def rstripWs (s : PyStr) : PyStr := (s.reverse.dropWhile isWs).reverse

/-- Python `str.strip()`. -/
def pyStrip (s : PyStr) : PyStr := rstripWs (lstripWs s)

/-- Python `str.upper()` on one character (ASCII range, by code point). -/
def pyCharUpper (c : Char) : Char :=
  if h : 97 ≤ c.toNat ∧ c.toNat ≤ 122 then
    Char.ofNatAux (c.toNat - 32) (Or.inl (by omega))
  else c

/-- Python `str.lower()` on one character (ASCII range, by code point). -/
def pyCharLower (c : Char) : Char :=
  if h : 65 ≤ c.toNat ∧ c.toNat ≤ 90 then
    Char.ofNatAux (c.toNat + 32) (Or.inl (by omega))
  else c

/-- Python `str.upper()`. -/
def pyUpper (s : PyStr) : PyStr := s.map pyCharUpper

/-- Python `str.lower()`. -/
def pyLower (s : PyStr) : PyStr := s.map pyCharLower

/-- Code-point value of a character produced by `Char.ofNatAux`. -/
theorem toNat_ofNatAux (n : Nat) (h : n.isValidChar) :
    (Char.ofNatAux n h).toNat = n := by
  simp [Char.ofNatAux, Char.toNat, UInt32.toNat, BitVec.toNat_ofNatLt]

/-- Code-point arithmetic of `pyCharUpper`. -/
theorem toNat_pyCharUpper (c : Char) :
    (pyCharUpper c).toNat =
      if 97 ≤ c.toNat ∧ c.toNat ≤ 122 then c.toNat - 32 else c.toNat := by
  unfold pyCharUpper
  by_cases h : 97 ≤ c.toNat ∧ c.toNat ≤ 122
  · simp [h, toNat_ofNatAux]
  · simp [h]

/-- Upper-casing a character does not change whether it is whitespace. -/
theorem isWs_pyCharUpper (c : Char) : isWs (pyCharUpper c) = isWs c := by
  by_cases h : 97 ≤ c.toNat ∧ c.toNat ≤ 122
  · have hl : isWs (pyCharUpper c) = false := by
      simp only [isWs, toNat_pyCharUpper, if_pos h]
      simp only [Bool.or_eq_false_iff, decide_eq_false_iff_not]
      omega
    have hr : isWs c = false := by
      simp only [isWs, Bool.or_eq_false_iff, decide_eq_false_iff_not]
      omega
    rw [hl, hr]
  · unfold pyCharUpper
    rw [dif_neg h]

/-- A character whose code point is outside the lowercase range is fixed
by `pyCharUpper`. -/
theorem pyCharUpper_eq_self (d : Char)
    (hg : ¬ (97 ≤ d.toNat ∧ d.toNat ≤ 122)) : pyCharUpper d = d := by
  unfold pyCharUpper
  rw [dif_neg hg]

/-- `pyCharUpper` is idempotent. -/
theorem pyCharUpper_idem (c : Char) : pyCharUpper (pyCharUpper c) = pyCharUpper c := by
  have h := toNat_pyCharUpper c
  by_cases hc : 97 ≤ c.toNat ∧ c.toNat ≤ 122
  · rw [if_pos hc] at h
    exact pyCharUpper_eq_self _ (by omega)
  · rw [if_neg hc] at h
    rw [pyCharUpper_eq_self c hc, pyCharUpper_eq_self c hc]

/-- `pyUpper` is idempotent. -/
theorem pyUpper_idem (s : PyStr) : pyUpper (pyUpper s) = pyUpper s := by
  simp [pyUpper, List.map_map, Function.comp_def, pyCharUpper_idem]

/-- The head of a `dropWhile` result never satisfies the dropped predicate. -/
theorem head_dropWhile_not {p : Char → Bool} :
    ∀ (l : PyStr) (a : Char), (l.dropWhile p).head? = some a → p a = false := by
  intro l
  induction l with
  | nil => intro a h; simp [List.dropWhile] at h
  | cons c rest ih =>
    intro a h
    by_cases hc : p c
    · rw [List.dropWhile_cons_of_pos hc] at h
      exact ih a h
    · rw [List.dropWhile_cons_of_neg hc] at h
      simp at h
      subst h
      simpa using hc

/-- A string whose boundary characters are not whitespace is fixed by `pyStrip`. -/
theorem pyStrip_eq_self (x : PyStr)
    (hh : ∀ a, x.head? = some a → isWs a = false)
    (hl : ∀ a, x.getLast? = some a → isWs a = false) :
    pyStrip x = x := by
  cases x with
  | nil => rfl
  | cons c rest =>
    have hc : isWs c = false := hh c rfl
    unfold pyStrip lstripWs rstripWs
    rw [List.dropWhile_cons_of_neg (by simp [hc])]
    have hrev : ((c :: rest).reverse.dropWhile isWs) = (c :: rest).reverse := by
      cases hrv : (c :: rest).reverse with
      | nil => simp at hrv
      | cons d ds =>
        have hd : (c :: rest).getLast? = some d := by
          rw [← List.head?_reverse, hrv]; rfl
        rw [List.dropWhile_cons_of_neg (by simp [hl d hd])]
    rw [hrev, List.reverse_reverse]

/-- The head of an `rstripWs` result is the head of the argument. -/
theorem head?_rstripWs (z : PyStr) (a : Char) (h : (rstripWs z).head? = some a) :
    z.head? = some a := by
  unfold rstripWs at h
  obtain ⟨t, ht⟩ :=
    (List.dropWhile_suffix isWs : z.reverse.dropWhile isWs <:+ z.reverse)
  have hz : z = (z.reverse.dropWhile isWs).reverse ++ t.reverse := by
    have h2 := congrArg List.reverse ht
    rw [List.reverse_append, List.reverse_reverse] at h2
    exact h2.symm
  rw [hz]
  cases hAc : (z.reverse.dropWhile isWs).reverse with
  | nil => rw [hAc] at h; simp at h
  | cons x xs =>
    rw [hAc] at h
    simpa using h

/-- The boundary characters of `pyStrip` output are not whitespace. -/
theorem pyStrip_head_not_ws (s : PyStr) (a : Char)
    (h : (pyStrip s).head? = some a) : isWs a = false := by
  unfold pyStrip at h
  have h2 := head?_rstripWs (lstripWs s) a h
  exact head_dropWhile_not s a h2

/-- The last character of `pyStrip` output is not whitespace. -/
theorem pyStrip_getLast_not_ws (s : PyStr) (a : Char)
    (h : (pyStrip s).getLast? = some a) : isWs a = false := by
  unfold pyStrip rstripWs at h
  rw [← List.head?_reverse, List.reverse_reverse] at h
  exact head_dropWhile_not (lstripWs s).reverse a h

/-- Upper-casing commutes with stripping on already-stripped strings:
applying `pyStrip` after `pyUpper ∘ pyStrip` changes nothing. -/
theorem pyStrip_pyUpper_pyStrip (s : PyStr) :
    pyStrip (pyUpper (pyStrip s)) = pyUpper (pyStrip s) := by
  apply pyStrip_eq_self
  · intro a h
    unfold pyUpper at h
    rw [List.head?_map] at h
    cases hh : (pyStrip s).head? with
    | none => rw [hh] at h; simp at h
    | some b =>
      rw [hh] at h
      simp at h
      rw [← h, isWs_pyCharUpper]
      exact pyStrip_head_not_ws s b hh
  · intro a h
    unfold pyUpper at h
    rw [List.getLast?_map] at h
    cases hh : (pyStrip s).getLast? with
    | none => rw [hh] at h; simp at h
    | some b =>
      rw [hh] at h
      simp at h
      rw [← h, isWs_pyCharUpper]
      exact pyStrip_getLast_not_ws s b hh

/-- Lexicographic string comparison by code point, Python's `<=` on `str`,
as used by `sorted(...)`. -/
def pyStrLe : PyStr → PyStr → Bool
  | [], _ => true
  | _ :: _, [] => false
  | a :: as, b :: bs =>
    if a.toNat < b.toNat then true
    else if b.toNat < a.toNat then false
    else pyStrLe as bs

/-- `pyStrLe` is total. -/
theorem pyStrLe_total : ∀ a b : PyStr, pyStrLe a b = true ∨ pyStrLe b a = true := by
  intro a
  induction a with
  | nil => intro b; left; simp [pyStrLe]
  | cons c cs ih =>
    intro b
    cases b with
    | nil => right; simp [pyStrLe]
    | cons d ds =>
      rcases Nat.lt_trichotomy c.toNat d.toNat with h | h | h
      · left; simp [pyStrLe, h]
      · rcases ih ds with h' | h'
        · left; simp [pyStrLe, h, Nat.lt_irrefl, h']
        · right; simp [pyStrLe, h.symm, Nat.lt_irrefl, h']
      · right; simp [pyStrLe, h]

/-- `pyStrLe` is transitive. -/
theorem pyStrLe_trans :
    ∀ a b c : PyStr, pyStrLe a b = true → pyStrLe b c = true → pyStrLe a c = true := by
  intro a
  induction a with
  | nil => intro b c _ _; simp [pyStrLe]
  | cons x xs ih =>
    intro b c hab hbc
    cases b with
    | nil => simp [pyStrLe] at hab
    | cons y ys =>
      cases c with
      | nil => simp [pyStrLe] at hbc
      | cons z zs =>
        simp only [pyStrLe] at hab hbc ⊢
        rcases Nat.lt_trichotomy x.toNat y.toNat with h1 | h1 | h1
        · rcases Nat.lt_trichotomy y.toNat z.toNat with h2 | h2 | h2
          · simp [Nat.lt_trans h1 h2]
          · simp [h2 ▸ h1]
          · rw [if_neg (by omega), if_pos h2] at hbc
            exact absurd hbc (by simp)
        · rw [if_neg (by omega), if_neg (by omega)] at hab
          rcases Nat.lt_trichotomy y.toNat z.toNat with h2 | h2 | h2
          · simp [h1 ▸ h2]
          · rw [if_neg (by omega), if_neg (by omega)] at hbc
            rw [if_neg (by omega), if_neg (by omega)]
            exact ih ys zs hab hbc
          · rw [if_neg (by omega), if_pos h2] at hbc
            exact absurd hbc (by simp)
        · rw [if_neg (by omega), if_pos h1] at hab
          exact absurd hab (by simp)

/-- Python `sorted(set(l))`: the sorted list of the distinct elements. -/
def pySortedSet (l : List PyStr) : List PyStr :=
  (l.dedup).mergeSort pyStrLe

/-! ## Data access layer: `providers/yf.py` `_retrying` -/

/-- Outcome of one invocation of the wrapped call in `_retrying`:
either it returns a value, or it raises (rate-limit or other exception —
both are caught and retried by the same loop). -/
inductive COut (α : Type) where
  | ok (v : α)
  | exn
deriving DecidableEq

/-- The retry loop of `_retrying`: `for attempt in range(_MAX_RETRIES + 1)`.
`call` gives the outcome of the attempt with the given index; the result
pairs the returned value (`none` = the final `return None` after
exhaustion) with the number of invocations actually performed. -/
def retryLoop {α : Type} (call : Nat → COut α) : Nat → Nat → Option α × Nat
  | _, 0 => (none, 0)
  | attempt, fuel + 1 =>
    match call attempt with
    | .ok v => (some v, 1)
    | .exn =>
      let r := retryLoop call (attempt + 1) fuel
      (r.1, r.2 + 1)

/-- `_retrying(call, key=key, cache=cache)`: cache first (a hit performs no
invocation at all), then up to `maxRetries + 1` attempts, then `None`. -/
def retrying {α : Type} (cached : Option α) (maxRetries : Nat)
    (call : Nat → COut α) : Option α × Nat :=
  match cached with
  | some v => (some v, 0)
  | none => retryLoop call 0 (maxRetries + 1)

/-- `YFClient.history`: `_retrying` over the price cache. The wrapped `_do`
returns `None` for an empty frame, hence the value type `Option α`. -/
def yfHistory {α : Type} (cache : Option (Option α)) (maxRetries : Nat)
    (call : Nat → COut (Option α)) : Option (Option α) × Nat :=
  retrying cache maxRetries call

/-- `YFClient.info`: `_retrying(...) or \x7b\x7d` — a `None` result is
replaced by the empty fact dictionary. -/
def yfInfo {κ ν : Type} (cache : Option (List (κ × ν))) (maxRetries : Nat)
    (call : Nat → COut (List (κ × ν))) : List (κ × ν) × Nat :=
  let r := retrying cache maxRetries call
  (r.1.getD [], r.2)

/-- `YFClient.fx`: `_retrying` over the fx cache; `_do` returns `None` for
an empty frame, otherwise the last close. -/
def yfFx (cache : Option (Option ℚ)) (maxRetries : Nat)
    (call : Nat → COut (Option ℚ)) : Option (Option ℚ) × Nat :=
  retrying cache maxRetries call

/-- If every attempt raises, the loop consumes all its fuel and yields `none`. -/
theorem retryLoop_all_exn {α : Type} (call : Nat → COut α)
    (h : call = fun _ => COut.exn) :
    ∀ fuel attempt, retryLoop call attempt fuel = (none, fuel) := by
  subst h
  intro fuel
  induction fuel with
  | zero => intro attempt; rfl
  | succ n ih =>
    intro attempt
    simp only [retryLoop, ih (attempt + 1)]

/-! ## Dynamic provider loading: `scanner._load_yf_provider_instance` -/

/-- A module attribute as the loader sees it. `funcGlobal g` is a function
whose body resolves the global name `g` when called (raising `NameError` if
the module never bound it); `funcOther` is a function whose body does not
fail on a name lookup; `cls` is a class object; `plain` is any
non-callable value. -/
inductive PyAttr where
  | funcGlobal (g : PyStr)
  | funcOther
  | cls
  | plain
deriving DecidableEq

/-- `getattr(module, n, None)` over the module's attribute list. -/
def getattrOf (attrs : List (PyStr × PyAttr)) (n : PyStr) : Option PyAttr :=
  (attrs.find? (fun p => p.1 = n)).map (fun p => p.2)

/-- Python `callable(...)`. -/
def pyCallable : PyAttr → Bool
  | .plain => false
  | _ => true

/-- Whether calling the attribute succeeds (`true`) or raises (`false`).
Calling `funcGlobal g` raises `NameError` exactly when `g` is not bound in
the module; calling a plain value raises `TypeError`. -/
def pyCallOk (attrs : List (PyStr × PyAttr)) : PyAttr → Bool
  | .funcGlobal g => (getattrOf attrs g).isSome
  | .funcOther => true
  | .cls => true
  | .plain => false

/-- First loop of `_load_yf_provider_instance`: probe factory functions
`get_provider`/`make_provider`/`provider`/`create`; a raising call is
swallowed (`except Exception: pass`) and probing continues. -/
def probeFactories (attrs : List (PyStr × PyAttr)) : List PyStr → Bool
  | [] => false
  | n :: rest =>
    match getattrOf attrs n with
    | some a =>
      if pyCallable a then
        if pyCallOk attrs a then true else probeFactories attrs rest
      else probeFactories attrs rest
    | none => probeFactories attrs rest

/-- Second loop: probe the class names; any non-`None` attribute is called,
and a raising constructor is skipped (`except Exception: continue`). -/
def probeClasses (attrs : List (PyStr × PyAttr)) : List PyStr → Bool
  | [] => false
  | n :: rest =>
    match getattrOf attrs n with
    | some a => if pyCallOk attrs a then true else probeClasses attrs rest
    | none => probeClasses attrs rest

/-- `all(hasattr(yfmod, n) for n in ("history", "info", "fx"))`. -/
def hasModuleFns (attrs : List (PyStr × PyAttr)) : Bool :=
  (getattrOf attrs ("history".data)).isSome &&
  (getattrOf attrs ("info".data)).isSome &&
  (getattrOf attrs ("fx".data)).isSome

/-- The factory names probed by the loader, in order. -/
def factoryNames : List PyStr :=
  [("get_provider".data), ("make_provider".data), ("provider".data), ("create".data)]

/-- The class names probed by the loader, in order. -/
def classNames : List PyStr :=
  [("YFProvider".data), ("YF".data), ("YahooProvider".data),
   ("Provider".data), ("Client".data)]

/-- Whether `_load_yf_provider_instance` finds a provider; when `false`
the final `raise ImportError(...)` branch is reached. -/
def loaderFindsProvider (attrs : List (PyStr × PyAttr)) : Bool :=
  probeFactories attrs factoryNames || probeClasses attrs classNames ||
    hasModuleFns attrs

/-- Executing `try: target = source / except NameError: pass` at module
top level: binds `target` only when `source` is already bound. -/
def execTryAlias (attrs : List (PyStr × PyAttr)) (target source : PyStr) :
    List (PyStr × PyAttr) :=
  match getattrOf attrs source with
  | some v => attrs ++ [(target, v)]
  | none => attrs

/-- The top-level bindings of `providers/yf.py` after its body executes, in
order: the imports, the module constants and singletons, `_throttle`,
`_TTLCache`, the three caches, `_retrying`, `YFClient`, then the
back-compat shim: `def get_provider` (whose body resolves the global `YF`
at call time) always binds, while `YFProvider = YF` raises `NameError`
(`YF` is nowhere bound) which the `except NameError: pass` swallows, so
`YFProvider` is never bound. -/
def yfModuleAttrs : List (PyStr × PyAttr) :=
  execTryAlias
    ([(("time".data), .plain), (("math".data), .plain),
      (("threading".data), .plain), (("lru_cache".data), .plain),
      (("Optional".data), .plain), (("Dict".data), .plain),
      (("Any".data), .plain), (("yfi".data), .plain),
      (("YFRateLimitError".data), .cls),
      (("_REQS_PER_SEC".data), .plain), (("_MIN_DELAY".data), .plain),
      (("_MAX_RETRIES".data), .plain), (("_BASE_SLEEP".data), .plain),
      (("_TTL_PRICE".data), .plain), (("_TTL_INFO".data), .plain),
      (("_TTL_FX".data), .plain), (("_lock".data), .plain),
      (("_last_ts".data), .plain),
      (("_throttle".data), .funcOther), (("_TTLCache".data), .cls),
      (("_price_cache".data), .plain), (("_info_cache".data), .plain),
      (("_fx_cache".data), .plain),
      (("_retrying".data), .funcOther), (("YFClient".data), .cls),
      (("get_provider".data), .funcGlobal ("YF".data))])
    ("YFProvider".data) ("YF".data)

/-- Result of `Scanner.__init__`: it calls `_load_yf_provider_instance()`
with no surrounding `try`, so a loader `ImportError` propagates. -/
inductive InitResult where
  | ok
  | importError
deriving DecidableEq

/-- `Scanner.__init__` under the actual `providers/yf.py` module. -/
def scannerInit : InitResult :=
  if loaderFindsProvider yfModuleAttrs then .ok else .importError

/-! ## Universe resolution: `Scanner.resolve_universe` and its cache -/

/-- Python `s.replace(pat, "")` for a non-empty pattern `pat`: every
occurrence of `pat` is removed, scanning left to right. -/
def pyRemoveAll (pat : PyStr) : PyStr → PyStr
  | [] => []
  | c :: rest =>
    if h : pat ≠ [] ∧ pat.isPrefixOf (c :: rest) then
      pyRemoveAll pat ((c :: rest).drop pat.length)
    else
      c :: pyRemoveAll pat rest
termination_by s => s.length
decreasing_by
  · have hp : 1 ≤ pat.length := by
      cases pat with
      | nil => exact absurd rfl h.1
      | cons p ps => simp
    simp only [List.length_drop, List.length_cons]
    omega
  · simp

/-- The per-universe cache environment and fetch outcomes seen by one
`resolve_universe` call. `store` maps a cache key to the raw lines of its
file together with the file's modification time (seconds); `none` models a
missing file. `liveSp500`/`liveAsx200` are the outcomes of the Wikipedia
fetch helpers (`none` = the fetch raised); `bundled` maps a bundled
universe name to the raw lines of `universes/<name>.txt`. -/
structure UnivEnv where
  store : PyStr → Option (List PyStr × ℚ)
  now : ℚ
  ttlHours : ℚ
  liveSp500 : Option (List PyStr)
  liveAsx200 : Option (List PyStr)
  bundled : PyStr → Option (List PyStr)

/-- `[ln.strip() for ln in f if ln.strip()]`: strip each line and keep the
non-blank ones. -/
def stripLines (lines : List PyStr) : List PyStr :=
  lines.filterMap (fun ln =>
    let s := pyStrip ln
    if s = [] then none else some s)

/-- `Scanner._read_cached_universe(key, max_age_hours)`: a hit requires the
file to exist, its age in hours to be within the TTL, and the stripped
lines to be non-empty (`return rows or None`). -/
def readCachedUniverse (env : UnivEnv) (key : PyStr) : Option (List PyStr) :=
  match env.store key with
  | none => none
  | some (lines, mtime) =>
    if (env.now - mtime) / 3600 ≤ env.ttlHours then
      let rows := stripLines lines
      if rows = [] then none else some rows
    else none

/-- `Scanner._read_bundled_universe(name)`. -/
def readBundled (env : UnivEnv) (name : PyStr) : Option (List PyStr) :=
  match env.bundled name with
  | none => none
  | some lines =>
    let rows := stripLines lines
    if rows = [] then none else some rows

/-- The outcome of a `resolve_universe` call: the returned list, the cache
store after the call, whether a live (Wikipedia) fetch was attempted, and
whether the call wrote the cache file for its key. -/
structure ResolveOut where
  syms : List PyStr
  cacheAfter : PyStr → Option (List PyStr × ℚ)
  liveUsed : Bool
  wrote : Bool

/-- The tail of `resolve_universe` after the cascade produced `fetched`:
each symbol is stripped, upper-cased and kept if non-blank, the list is
deduplicated and sorted, and a non-empty result is written back to the
cache file for `key` (stamped with the current time). -/
def finishResolve (env : UnivEnv) (key : PyStr) (fetched : List PyStr × Bool) :
    ResolveOut :=
  let normed0 := (fetched.1.map (fun s => pyUpper (pyStrip s))).filter
    (fun s => s ≠ [])
  let normed := pySortedSet normed0
  if normed = [] then ⟨normed, env.store, fetched.2, false⟩
  else
    ⟨normed,
     fun k => if k = key then some (normed, env.now) else env.store k,
     fetched.2, true⟩

/-- `Scanner.resolve_universe(name)`.  `key = name.strip().lower()`; a
fresh cache hit returns immediately; otherwise the source cascade runs
(live fetch for the two `auto:` names with bundled-file fallback on a
raised fetch; `file:`-names and all other names go straight to the bundled
file — `key.split(":", 1)[1]` equals dropping the `"file:"` head here),
then `finishResolve` normalizes, caches and returns. -/
def resolveUniverse (env : UnivEnv) (name : PyStr) : ResolveOut :=
  let key := pyLower (pyStrip name)
  match readCachedUniverse env key with
  | some cached => ⟨cached, env.store, false, false⟩
  | none =>
    finishResolve env key
      (if key = ("auto:sp500".data) then
        match env.liveSp500 with
        | some l => (l, true)
        | none => ((readBundled env (pyRemoveAll ("auto:".data) key)).getD [], true)
      else if key = ("auto:asx200".data) then
        match env.liveAsx200 with
        | some l => (l, true)
        | none => ((readBundled env (pyRemoveAll ("auto:".data) key)).getD [], true)
      else if ("file:".data).isPrefixOf key then
        ((readBundled env (key.drop 5)).getD [], false)
      else
        ((readBundled env (pyRemoveAll ("auto:".data) key)).getD [], false))

/-! ## Scoring engine: configuration (`config.py`) and `Scanner.screen` -/

/-- `MomentumCfg` from `config.py`. -/
structure MomentumCfg where
  enabled : Bool
  min_12m_mom : ℚ
  skip_last_month : Bool
deriving DecidableEq

/-- `MeanRevCfg` from `config.py` (the sell threshold is unused by `screen`). -/
structure MeanRevCfg where
  enabled : Bool
  rsi_period : ℤ
  rsi_buy_below : ℚ
deriving DecidableEq

/-- `ValueCfg` from `config.py`; thresholds are optional floats. -/
structure ValueCfg where
  enabled : Bool
  max_pe : Option ℚ
  max_pb : Option ℚ
  peg_max : Option ℚ
  ev_ebitda_max : Option ℚ
deriving DecidableEq

/-- `DividendCfg` from `config.py`. -/
structure DividendCfg where
  enabled : Bool
  min_yield : ℚ
  max_payout : Option ℚ
deriving DecidableEq

/-- `QualityCfg` from `config.py`. -/
structure QualityCfg where
  enabled : Bool
  min_roe : ℚ
  min_gross_margin : ℚ
  min_fcf_margin : ℚ
  min_rev_cagr_3y : ℚ
  max_net_debt_ebitda : ℚ
deriving DecidableEq

/-- `TrendCfg` from `config.py`. -/
structure TrendCfg where
  enabled : Bool
  require_above_sma200 : Bool
  sma_fast : ℤ
  sma_slow : ℤ
deriving DecidableEq

/-- `NewsCfg` from `config.py`. -/
structure NewsCfg where
  enabled : Bool
  min_avg_sentiment : ℚ
deriving DecidableEq

/-- `BreakoutCfg` from `config.py`. -/
structure BreakoutCfg where
  enabled : Bool
  near_high_pct : ℚ
deriving DecidableEq

/-- `SignalsCfg` from `config.py`. -/
structure SignalsCfg where
  momentum : MomentumCfg
  mean_reversion : MeanRevCfg
  value : ValueCfg
  dividend : DividendCfg
  quality : QualityCfg
  technical_trend : TrendCfg
  news_sentiment : NewsCfg
  breakout52w : BreakoutCfg
deriving DecidableEq

/-- The part of `Cfg` that `screen` reads. -/
structure Cfg where
  base_currency : PyStr
  signals : SignalsCfg
deriving DecidableEq

/-- The fundamental fact bundle `self.fund.facts(tk) or \x7b\x7d`, as the
optional numeric values `screen` reads (a missing dict key reads as
`None`; a raised `facts` call gives the all-`none` bundle). -/
structure Facts where
  pe_ttm : Option ℚ := none
  pe_fwd : Option ℚ := none
  pb : Option ℚ := none
  peg : Option ℚ := none
  ev_ebitda : Option ℚ := none
  roe : Option ℚ := none
  gross_margin : Option ℚ := none
  fcf_margin : Option ℚ := none
  rev_cagr_3y : Option ℚ := none
  net_debt_ebitda : Option ℚ := none
  div_yield_ttm : Option ℚ := none
  payout_ratio : Option ℚ := none
deriving DecidableEq

/-- The external world one `screen` call observes. `history tk` is the
`close` column of `self.yf.history(tk, period="5y")` after `dropna()`;
`none` models a raised call or an absent/empty/column-less frame, while
`some []` models a non-empty frame whose close column is entirely NaN
(the frame passes the emptiness check but `dropna()` leaves nothing, so
`float(close.iloc[-1])` raises an uncaught `IndexError`).
`dividends_ttm`, `sentiment` and `fx` model the corresponding provider
calls, with `none` for a raise or a `None` result.  `maxUniverse` is
`SCAN_MAX_TICKERS` (default 120). -/
structure ScanEnv where
  history : PyStr → Option (List ℚ)
  dividends_ttm : PyStr → Option ℚ
  sentiment : PyStr → Option ℚ
  facts : PyStr → Facts
  fx : Option ℚ
  maxUniverse : ℕ

/-- Python truthiness of an optional number: `None` and `0` are falsy. -/
def truthy : Option ℚ → Bool
  | none => false
  | some x => decide (x ≠ 0)

/-- `Scanner._resolve_ccy`. -/
def resolveCcy (tk : PyStr) : PyStr :=
  if (".AX".data).isSuffixOf tk then ("AUD".data) else ("USD".data)

/-- The effective AUD/USD rate: `self.yf.fx("AUDUSD=X") or 0.65`, with a
raised call also falling back to `0.65`. -/
def fxRate (env : ScanEnv) : ℚ :=
  match env.fx with
  | some v => if v = 0 then 13/20 else v
  | none => 13/20

/-- `Scanner._to_base(px, from_ccy)`. -/
def toBase (cfg : Cfg) (env : ScanEnv) (px : ℚ) (fromCcy : PyStr) : ℚ :=
  let base := pyUpper cfg.base_currency
  if base = fromCcy then px
  else if (base = ("AUD".data) ∧ fromCcy = ("USD".data)) ∨
          (base = ("USD".data) ∧ fromCcy = ("AUD".data)) then
    if base = ("USD".data) then px else px / fxRate env
  else px

/-- `Scanner._sma(close, n).iloc[-1]`-style last rolling mean:
`error` models a raised call (empty series or non-positive window),
`ok none` models a NaN (series shorter than the window). -/
def smaLast (close : List ℚ) (n : ℤ) : Except Unit (Option ℚ) :=
  if close = [] then .error ()
  else if n ≤ 0 then .error ()
  else
    let m := n.toNat
    if close.length < m then .ok none
    else .ok (some ((close.drop (close.length - m)).sum / (m : ℚ)))

/-- `Scanner._mom_12_1(close, skip_last_month)`: `none` models a
non-finite result (fewer than 260 rows gives `nan`; a zero base price
gives `inf`), which never fires the momentum rule. -/
def mom121 (close : List ℚ) (skipLast : Bool) : Option ℚ :=
  if close.length < 260 then none
  else
    let denom := close.getD (close.length - 252) 0
    let numer :=
      if skipLast then close.getD (close.length - 21) 0
      else close.getD (close.length - 1) 0
    if denom = 0 then none else some (numer / denom - 1)

/-- `ewm(alpha=a, adjust=False).mean().iloc[-1]` over a series whose
leading `diff()` NaN has been removed: the recursion
`e₀ = x₀, eᵢ = (1-a)·eᵢ₋₁ + a·xᵢ`, last value. -/
def ewmLast (a : ℚ) : List ℚ → Option ℚ
  | [] => none
  | x :: xs => some (xs.foldl (fun e y => (1 - a) * e + a * y) x)

/-- `Scanner._rsi(close, period).iloc[-1]`: `none` models a raised call
(non-positive period) or a NaN result (no price change rows). -/
def rsiLast (close : List ℚ) (period : ℤ) : Option ℚ :=
  if period ≤ 0 then none
  else
    let a : ℚ := 1 / (period : ℚ)
    let diffs := (close.zip close.tail).map (fun p => p.2 - p.1)
    let ups := diffs.map (fun d => max d 0)
    let downs := diffs.map (fun d => max (-d) 0)
    match ewmLast a ups, ewmLast a downs with
    | some mu, some md =>
      let rs := mu / (md + 1/1000000000)
      some (100 - 100 / (1 + rs))
    | _, _ => none

/-- The scoring reasons `screen` can append (tags for the literal reason
strings of the source). -/
inductive Reason where
  | uptrend
  | mom12
  | rsiOversold
  | peOk
  | pbOk
  | pegOk
  | evEbitdaOk
  | roeOk
  | gmOk
  | fcfOk
  | revCagrOk
  | netDebtOk
  | divYieldOk
  | payoutOk
  | newsOk
  | near52w
deriving DecidableEq

/-- The fixed weight each fired reason adds to the score. -/
def weight : Reason → ℚ
  | .uptrend => 4/10
  | .mom12 => 6/10
  | .rsiOversold => 3/10
  | .peOk => 3/10
  | .pbOk => 2/10
  | .pegOk => 2/10
  | .evEbitdaOk => 2/10
  | .roeOk => 3/10
  | .gmOk => 2/10
  | .fcfOk => 2/10
  | .revCagrOk => 2/10
  | .netDebtOk => 2/10
  | .divYieldOk => 2/10
  | .payoutOk => 1/10
  | .newsOk => 2/10
  | .near52w => 3/10

/-- `BUY`/`HOLD`/`PASS`. -/
inductive Side where
  | buy
  | hold
  | pass
deriving DecidableEq

/-- One signal record of `screen`'s output (the fields the claims are
about; `asof` and `extras` are diagnostic). -/
structure SignalRecord where
  ticker : PyStr
  side : Side
  reasons : List Reason
  score : ℚ
  px : ℚ
deriving DecidableEq

/-- `reasons.append(r); score += w` guarded by a condition. -/
def addIf (c : Bool) (r : Reason) (w : ℚ) (acc : List Reason × ℚ) :
    List Reason × ℚ :=
  if c then (acc.1 ++ [r], acc.2 + w) else acc

/-- The technical-trend block of `screen`: both rolling means are computed
inside one `try` (a raise aborts the block), then the reason fires when
the block is enabled and either the above-SMA200 requirement is off or
`px >= sma_slow * (1 - 1e-6)` (false against a NaN mean). -/
def trendStage (t : TrendCfg) (close : List ℚ) (px : ℚ)
    (acc : List Reason × ℚ) : List Reason × ℚ :=
  match smaLast close t.sma_fast, smaLast close t.sma_slow with
  | .ok _, .ok smaSlow =>
    addIf (t.enabled &&
      (!t.require_above_sma200 ||
        (match smaSlow with
         | some v => decide (v * (1 - 1/1000000) ≤ px)
         | none => false))) .uptrend (4/10) acc
  | _, _ => acc

/-- The momentum block of `screen`. -/
def momStage (m : MomentumCfg) (close : List ℚ) (acc : List Reason × ℚ) :
    List Reason × ℚ :=
  if m.enabled then
    match mom121 close m.skip_last_month with
    | some v => addIf (decide (m.min_12m_mom ≤ v)) .mom12 (6/10) acc
    | none => acc
  else acc

/-- The mean-reversion (RSI) block of `screen`. -/
def rsiStage (mr : MeanRevCfg) (close : List ℚ) (acc : List Reason × ℚ) :
    List Reason × ℚ :=
  if mr.enabled then
    match rsiLast close mr.rsi_period with
    | some v => addIf (decide (v ≤ mr.rsi_buy_below)) .rsiOversold (3/10) acc
    | none => acc
  else acc

/-- `Scanner._valuation_ok(facts)`. -/
def valuationOk (v : ValueCfg) (f : Facts) : Bool × List Reason × ℚ :=
  let pe := if truthy f.pe_ttm then f.pe_ttm else f.pe_fwd
  let acc : List Reason × ℚ := ([], 0)
  let acc := addIf (truthy pe && truthy v.max_pe &&
    decide (pe.getD 0 ≤ v.max_pe.getD 0)) .peOk (3/10) acc
  let acc := addIf (truthy f.pb && truthy v.max_pb &&
    decide (f.pb.getD 0 ≤ v.max_pb.getD 0)) .pbOk (2/10) acc
  let acc := addIf (truthy f.peg && truthy v.peg_max &&
    decide (f.peg.getD 0 ≤ v.peg_max.getD 0)) .pegOk (2/10) acc
  let acc := addIf (truthy f.ev_ebitda && truthy v.ev_ebitda_max &&
    decide (f.ev_ebitda.getD 0 ≤ v.ev_ebitda_max.getD 0)) .evEbitdaOk (2/10) acc
  (decide (0 < acc.2), acc.1, acc.2)

/-- `Scanner._quality_ok(facts)`; the net-debt check uses `is not None`
rather than truthiness. -/
def qualityOk (q : QualityCfg) (f : Facts) : Bool × List Reason × ℚ :=
  let acc : List Reason × ℚ := ([], 0)
  let acc := addIf (truthy f.roe && decide (q.min_roe ≤ f.roe.getD 0))
    .roeOk (3/10) acc
  let acc := addIf (truthy f.gross_margin &&
    decide (q.min_gross_margin ≤ f.gross_margin.getD 0)) .gmOk (2/10) acc
  let acc := addIf (truthy f.fcf_margin &&
    decide (q.min_fcf_margin ≤ f.fcf_margin.getD 0)) .fcfOk (2/10) acc
  let acc := addIf (truthy f.rev_cagr_3y &&
    decide (q.min_rev_cagr_3y ≤ f.rev_cagr_3y.getD 0)) .revCagrOk (2/10) acc
  let acc := addIf (f.net_debt_ebitda.isSome &&
    decide (f.net_debt_ebitda.getD 0 ≤ q.max_net_debt_ebitda)) .netDebtOk (2/10) acc
  (decide (0 < acc.2), acc.1, acc.2)

/-- The valuation block of `screen`: `reasons += rs; score += sc`. -/
def valueStage (v : ValueCfg) (f : Facts) (acc : List Reason × ℚ) :
    List Reason × ℚ :=
  if v.enabled then
    let r := valuationOk v f
    (acc.1 ++ r.2.1, acc.2 + r.2.2)
  else acc

/-- The quality block of `screen`. -/
def qualityStage (q : QualityCfg) (f : Facts) (acc : List Reason × ℚ) :
    List Reason × ℚ :=
  if q.enabled then
    let r := qualityOk q f
    (acc.1 ++ r.2.1, acc.2 + r.2.2)
  else acc

/-- The dividend block of `screen`: `dy = facts.get('div_yield_ttm') or
self.yf.dividends_ttm(tk)` (raises leave `dy = None`), then the yield and
payout checks fire independently. -/
def divStage (d : DividendCfg) (f : Facts) (divTtm : Option ℚ)
    (acc : List Reason × ℚ) : List Reason × ℚ :=
  if d.enabled then
    let dy : Option ℚ := if truthy f.div_yield_ttm then f.div_yield_ttm else divTtm
    let acc := addIf (truthy dy && decide (d.min_yield ≤ dy.getD 0))
      .divYieldOk (2/10) acc
    addIf (truthy dy && truthy d.max_payout && truthy f.payout_ratio &&
      decide (f.payout_ratio.getD 0 ≤ d.max_payout.getD 0)) .payoutOk (1/10) acc
  else acc

/-- The news-sentiment block of `screen`: fires when the average is
non-`None` and at least the configured minimum. -/
def newsStage (n : NewsCfg) (sm : Option ℚ) (acc : List Reason × ℚ) :
    List Reason × ℚ :=
  if n.enabled then
    match sm with
    | some v => addIf (decide (n.min_avg_sentiment ≤ v)) .newsOk (2/10) acc
    | none => acc
  else acc

/-- The 52-week-breakout block of `screen`: the high of the trailing 252
rows (or of the whole series when shorter); a zero high gives a NaN
distance (`if hi else nan`), which never fires. -/
def breakoutStage (b : BreakoutCfg) (close : List ℚ) (px : ℚ)
    (acc : List Reason × ℚ) : List Reason × ℚ :=
  if b.enabled then
    let tailPart := if 252 ≤ close.length then close.drop (close.length - 252) else close
    match tailPart with
    | [] => acc
    | h :: t =>
      let hi := t.foldl max h
      let dist : Option ℚ := if hi = 0 then none else some ((hi - px) / hi)
      addIf (match dist with
             | some dv => decide (dv ≤ b.near_high_pct)
             | none => false) .near52w (3/10) acc
  else acc

/-- Python's banker's rounding to an integer. -/
def roundHalfEven (x : ℚ) : ℤ :=
  let n := ⌊x⌋
  let r := x - n
  if r < 1/2 then n
  else if 1/2 < r then n + 1
  else if Even n then n else n + 1

/-- Python `round(x, 3)`. -/
def pyRound3 (x : ℚ) : ℚ := (roundHalfEven (x * 1000) : ℚ) / 1000

/-- The reasons/score accumulator after the eight factor blocks of
`Scanner.screen` run in source order on one ticker. -/
def screenAcc (cfg : Cfg) (env : ScanEnv) (tk : PyStr) (close : List ℚ)
    (px : ℚ) : List Reason × ℚ :=
  breakoutStage cfg.signals.breakout52w close px
    (newsStage cfg.signals.news_sentiment (env.sentiment tk)
      (divStage cfg.signals.dividend (env.facts tk) (env.dividends_ttm tk)
        (qualityStage cfg.signals.quality (env.facts tk)
          (valueStage cfg.signals.value (env.facts tk)
            (rsiStage cfg.signals.mean_reversion close
              (momStage cfg.signals.momentum close
                (trendStage cfg.signals.technical_trend close px ([], 0))))))))

/-- `side = "BUY" if score >= 1.5 else ("HOLD" if score >= 0.5 else "PASS")`. -/
def classify (score : ℚ) : Side :=
  if (3:ℚ)/2 ≤ score then Side.buy
  else if (1:ℚ)/2 ≤ score then Side.hold
  else Side.pass

/-- The per-ticker body of `Scanner.screen`'s loop: `.ok none` models the
`continue` paths (raised or absent history, empty frame, missing close
column); `.error ()` models the UNCAUGHT `IndexError` that
`px = float(close.iloc[-1])` raises when the frame is non-empty but its
close column is empty after `dropna()` — this exception aborts the whole
`screen` call; otherwise the eight factor blocks run in source order and
the record is classified and emitted. -/
def screenOne (cfg : Cfg) (env : ScanEnv) (tk : PyStr) :
    Except Unit (Option SignalRecord) :=
  match env.history tk with
  | none => .ok none
  | some close =>
    match close.getLast? with
    | none => .error ()
    | some px =>
      let acc := screenAcc cfg env tk close px
      .ok (some ⟨tk, classify acc.2, acc.1, pyRound3 acc.2,
            toBase cfg env px (resolveCcy tk)⟩)

/-- The `for` loop of `Scanner.screen`: tickers are processed in order,
skipped ones contribute nothing, and an uncaught `IndexError` from one
iteration aborts the whole call (all accumulated records are lost). -/
def screenLoop (cfg : Cfg) (env : ScanEnv) :
    List PyStr → Except Unit (List SignalRecord)
  | [] => .ok []
  | tk :: rest =>
    match screenOne cfg env tk with
    | .error e => .error e
    | .ok none => screenLoop cfg env rest
    | .ok (some r) =>
      match screenLoop cfg env rest with
      | .error e => .error e
      | .ok out => .ok (r :: out)

/-- `Scanner.screen(tickers, max_tickers, chunk=None)`: empty input short
circuits; the input is deduplicated and sorted, capped (a non-positive or
absent `max_tickers` falls back to `self.max_universe`), each surviving
ticker is screened (an uncaught `IndexError` propagates to the caller),
and the output is sorted by descending score (stable, so ties keep the
sorted-symbol order). `chunk` is `None` at every call site modeled here,
and `_apply_chunk(arr, None)` returns `arr` unchanged. -/
def screen (cfg : Cfg) (env : ScanEnv) (tickers : List PyStr)
    (maxTickers : Option ℤ) : Except Unit (List SignalRecord) :=
  if tickers = [] then .ok []
  else
    let uniq := pySortedSet tickers
    let cap : ℕ :=
      match maxTickers with
      | some m => if 0 < m then m.toNat else env.maxUniverse
      | none => env.maxUniverse
    match screenLoop cfg env (uniq.take cap) with
    | .error e => .error e
    | .ok out => .ok (out.mergeSort (fun a b => decide (b.score ≤ a.score)))

/-! ## Scan queue: `prepare_queue`, `next_step`, `queue_status`, `results_all` -/

/-- The queue's persisted state: the pending jsonl rows (tickers) and the
results jsonl rows. -/
structure QState where
  queue : List PyStr
  results : List SignalRecord
deriving DecidableEq

/-- The dict `next_step` returns; `last = none` stands for the
transient `\x7b"ticker": ..., "error": "no-data"\x7d` placeholder, which
is returned but never written to the results file. -/
structure StepOut where
  done : Bool
  remaining : ℕ
  last : Option SignalRecord
deriving DecidableEq

/-- `Scanner.prepare_queue`: resolved symbols are deduplicated, sorted,
capped, written as the new queue; the results file is removed. -/
def prepareQueue (syms : List PyStr) (cap : ℕ) : QState :=
  ⟨(pySortedSet syms).take cap, []⟩

/-- `Scanner.next_step()`: an empty queue reports done; otherwise the head
ticker is popped (in memory), screened via `screen([ticker],
max_tickers=1)`, and the single record — if any — is appended to the
results; a no-data ticker is dropped from the queue with nothing persisted
for it. An uncaught `IndexError` from `screen` propagates BEFORE the queue
and results files are rewritten, so on the error path the persisted state
is unchanged (the exception carries no new state). -/
def nextStep (cfg : Cfg) (env : ScanEnv) (st : QState) :
    Except Unit (StepOut × QState) :=
  match st.queue with
  | [] => .ok (⟨true, 0, none⟩, st)
  | job :: rest =>
    match screen cfg env [job] (some 1) with
    | .error e => .error e
    | .ok res =>
      .ok (⟨false, rest.length, res.head?⟩,
           ⟨rest, st.results ++ (match res with
             | [] => []
             | r :: _ => [r])⟩)

/-- `n` consecutive `next_step` calls; an exception from any step aborts
the run. -/
def stepN (cfg : Cfg) (env : ScanEnv) : ℕ → QState → Except Unit QState
  | 0, st => .ok st
  | n + 1, st =>
    match nextStep cfg env st with
    | .error e => .error e
    | .ok (_, st2) => stepN cfg env n st2

/-- The counts reported by `Scanner.queue_status()` (it reports
`remaining`/`processed`; it has no `done` field). -/
structure QStatus where
  remaining : ℕ
  processed : ℕ
deriving DecidableEq

/-- `Scanner.queue_status()`. -/
def queueStatus (st : QState) : QStatus :=
  ⟨st.queue.length, st.results.length⟩

/-- `Scanner.results_all()`. -/
def resultsAll (st : QState) : List SignalRecord := st.results

/-! ## Scoring lemmas: the score is the sum of the fired weights -/

/-- `addIf` preserves the score/reasons sum invariant when the added
weight is the tag's weight. -/
theorem addIf_inv (c : Bool) (r : Reason) (w : ℚ) (acc : List Reason × ℚ)
    (hw : w = weight r) (h : acc.2 = (acc.1.map weight).sum) :
    (addIf c r w acc).2 = ((addIf c r w acc).1.map weight).sum := by
  cases c with
  | false => simpa [addIf] using h
  | true => simp [addIf, h, hw]

/-- The trend block preserves the sum invariant. -/
theorem trendStage_inv (t : TrendCfg) (close : List ℚ) (px : ℚ)
    (acc : List Reason × ℚ) (h : acc.2 = (acc.1.map weight).sum) :
    (trendStage t close px acc).2 = ((trendStage t close px acc).1.map weight).sum := by
  cases hf : smaLast close t.sma_fast with
  | error u => simp only [trendStage, hf]; exact h
  | ok o1 =>
    cases hs : smaLast close t.sma_slow with
    | error u => simp only [trendStage, hf, hs]; exact h
    | ok o2 =>
      simp only [trendStage, hf, hs]
      exact addIf_inv _ _ _ _ rfl h

/-- The momentum block preserves the sum invariant. -/
theorem momStage_inv (m : MomentumCfg) (close : List ℚ)
    (acc : List Reason × ℚ) (h : acc.2 = (acc.1.map weight).sum) :
    (momStage m close acc).2 = ((momStage m close acc).1.map weight).sum := by
  unfold momStage
  by_cases he : m.enabled
  · simp only [if_pos he]
    cases hm : mom121 close m.skip_last_month with
    | none => exact h
    | some v => exact addIf_inv _ _ _ _ rfl h
  · simp only [if_neg he]; exact h

/-- The mean-reversion block preserves the sum invariant. -/
theorem rsiStage_inv (mr : MeanRevCfg) (close : List ℚ)
    (acc : List Reason × ℚ) (h : acc.2 = (acc.1.map weight).sum) :
    (rsiStage mr close acc).2 = ((rsiStage mr close acc).1.map weight).sum := by
  unfold rsiStage
  by_cases he : mr.enabled
  · simp only [if_pos he]
    cases hr : rsiLast close mr.rsi_period with
    | none => exact h
    | some v => exact addIf_inv _ _ _ _ rfl h
  · simp only [if_neg he]; exact h

/-- `_valuation_ok` returns a reasons list and exactly its weight sum. -/
theorem valuationOk_inv (v : ValueCfg) (f : Facts) :
    (valuationOk v f).2.2 = ((valuationOk v f).2.1.map weight).sum := by
  unfold valuationOk
  refine addIf_inv _ _ _ _ rfl ?_
  refine addIf_inv _ _ _ _ rfl ?_
  refine addIf_inv _ _ _ _ rfl ?_
  refine addIf_inv _ _ _ _ rfl ?_
  simp

/-- `_quality_ok` returns a reasons list and exactly its weight sum. -/
theorem qualityOk_inv (q : QualityCfg) (f : Facts) :
    (qualityOk q f).2.2 = ((qualityOk q f).2.1.map weight).sum := by
  unfold qualityOk
  refine addIf_inv _ _ _ _ rfl ?_
  refine addIf_inv _ _ _ _ rfl ?_
  refine addIf_inv _ _ _ _ rfl ?_
  refine addIf_inv _ _ _ _ rfl ?_
  refine addIf_inv _ _ _ _ rfl ?_
  simp

/-- The valuation block preserves the sum invariant. -/
theorem valueStage_inv (v : ValueCfg) (f : Facts)
    (acc : List Reason × ℚ) (h : acc.2 = (acc.1.map weight).sum) :
    (valueStage v f acc).2 = ((valueStage v f acc).1.map weight).sum := by
  unfold valueStage
  by_cases he : v.enabled
  · simp only [if_pos he, List.map_append, List.sum_append, h, valuationOk_inv v f]
  · simp only [if_neg he]; exact h

/-- The quality block preserves the sum invariant. -/
theorem qualityStage_inv (q : QualityCfg) (f : Facts)
    (acc : List Reason × ℚ) (h : acc.2 = (acc.1.map weight).sum) :
    (qualityStage q f acc).2 = ((qualityStage q f acc).1.map weight).sum := by
  unfold qualityStage
  by_cases he : q.enabled
  · simp only [if_pos he, List.map_append, List.sum_append, h, qualityOk_inv q f]
  · simp only [if_neg he]; exact h

/-- The dividend block preserves the sum invariant. -/
theorem divStage_inv (d : DividendCfg) (f : Facts) (divTtm : Option ℚ)
    (acc : List Reason × ℚ) (h : acc.2 = (acc.1.map weight).sum) :
    (divStage d f divTtm acc).2 = ((divStage d f divTtm acc).1.map weight).sum := by
  unfold divStage
  by_cases he : d.enabled
  · simp only [if_pos he]
    exact addIf_inv _ _ _ _ rfl (addIf_inv _ _ _ _ rfl h)
  · simp only [if_neg he]; exact h

/-- The news block preserves the sum invariant. -/
theorem newsStage_inv (n : NewsCfg) (sm : Option ℚ)
    (acc : List Reason × ℚ) (h : acc.2 = (acc.1.map weight).sum) :
    (newsStage n sm acc).2 = ((newsStage n sm acc).1.map weight).sum := by
  unfold newsStage
  by_cases he : n.enabled
  · simp only [if_pos he]
    cases sm with
    | none => exact h
    | some v => exact addIf_inv _ _ _ _ rfl h
  · simp only [if_neg he]; exact h

/-- The breakout block preserves the sum invariant. -/
theorem breakoutStage_inv (b : BreakoutCfg) (close : List ℚ) (px : ℚ)
    (acc : List Reason × ℚ) (h : acc.2 = (acc.1.map weight).sum) :
    (breakoutStage b close px acc).2 = ((breakoutStage b close px acc).1.map weight).sum := by
  unfold breakoutStage
  by_cases he : b.enabled
  · simp only [if_pos he]
    cases htp : (if 252 ≤ close.length then close.drop (close.length - 252) else close) with
    | nil => exact h
    | cons hd tl => exact addIf_inv _ _ _ _ rfl h
  · simp only [if_neg he]; exact h

/-- The full accumulator satisfies `score = sum of the weights of the
fired reasons`. -/
theorem screenAcc_inv (cfg : Cfg) (env : ScanEnv) (tk : PyStr)
    (close : List ℚ) (px : ℚ) :
    (screenAcc cfg env tk close px).2 =
      ((screenAcc cfg env tk close px).1.map weight).sum := by
  unfold screenAcc
  refine breakoutStage_inv _ _ _ _ ?_
  refine newsStage_inv _ _ _ ?_
  refine divStage_inv _ _ _ _ ?_
  refine qualityStage_inv _ _ _ ?_
  refine valueStage_inv _ _ _ ?_
  refine rsiStage_inv _ _ _ ?_
  refine momStage_inv _ _ _ ?_
  refine trendStage_inv _ _ _ _ ?_
  simp

/-- Every weight is an integer number of tenths. -/
theorem weight_tenths (r : Reason) : ∃ k : ℤ, weight r = (k : ℚ) / 10 := by
  cases r
  case uptrend => exact ⟨4, by norm_num [weight]⟩
  case mom12 => exact ⟨6, by norm_num [weight]⟩
  case rsiOversold => exact ⟨3, by norm_num [weight]⟩
  case peOk => exact ⟨3, by norm_num [weight]⟩
  case pbOk => exact ⟨2, by norm_num [weight]⟩
  case pegOk => exact ⟨2, by norm_num [weight]⟩
  case evEbitdaOk => exact ⟨2, by norm_num [weight]⟩
  case roeOk => exact ⟨3, by norm_num [weight]⟩
  case gmOk => exact ⟨2, by norm_num [weight]⟩
  case fcfOk => exact ⟨2, by norm_num [weight]⟩
  case revCagrOk => exact ⟨2, by norm_num [weight]⟩
  case netDebtOk => exact ⟨2, by norm_num [weight]⟩
  case divYieldOk => exact ⟨2, by norm_num [weight]⟩
  case payoutOk => exact ⟨1, by norm_num [weight]⟩
  case newsOk => exact ⟨2, by norm_num [weight]⟩
  case near52w => exact ⟨3, by norm_num [weight]⟩

/-- Any sum of weights is an integer number of tenths. -/
theorem sum_weights_tenths (rs : List Reason) :
    ∃ k : ℤ, (rs.map weight).sum = (k : ℚ) / 10 := by
  induction rs with
  | nil => exact ⟨0, by simp⟩
  | cons r rest ih =>
    obtain ⟨k, hk⟩ := ih
    obtain ⟨j, hj⟩ := weight_tenths r
    refine ⟨j + k, ?_⟩
    simp only [List.map_cons, List.sum_cons, hk, hj]
    push_cast
    ring

/-- Banker's rounding fixes integers. -/
theorem roundHalfEven_intCast (z : ℤ) : roundHalfEven (z : ℚ) = z := by
  unfold roundHalfEven
  norm_num

/-- `round(x, 3)` fixes integer numbers of tenths. -/
theorem pyRound3_tenths (k : ℤ) : pyRound3 ((k : ℚ) / 10) = (k : ℚ) / 10 := by
  unfold pyRound3
  have h : ((k : ℚ) / 10) * 1000 = ((k * 100 : ℤ) : ℚ) := by push_cast; ring
  rw [h, roundHalfEven_intCast]
  push_cast
  ring

/-- `round(x, 3)` fixes every reachable score. -/
theorem pyRound3_sum_weights (rs : List Reason) :
    pyRound3 ((rs.map weight).sum) = (rs.map weight).sum := by
  obtain ⟨k, hk⟩ := sum_weights_tenths rs
  rw [hk, pyRound3_tenths]

/-- Shape of a produced record: `screenOne` emits exactly the classified
accumulator of the matched close series. -/
theorem screenOne_some_shape (cfg : Cfg) (env : ScanEnv) (tk : PyStr)
    (r : SignalRecord) (h : screenOne cfg env tk = .ok (some r)) :
    ∃ close px, env.history tk = some close ∧ close.getLast? = some px ∧
      r = ⟨tk, classify (screenAcc cfg env tk close px).2,
           (screenAcc cfg env tk close px).1,
           pyRound3 (screenAcc cfg env tk close px).2,
           toBase cfg env px (resolveCcy tk)⟩ := by
  cases hh : env.history tk with
  | none =>
    simp only [screenOne, hh, Except.ok.injEq] at h
    exact Option.noConfusion h
  | some close =>
    simp only [screenOne, hh] at h
    cases hcl : close.getLast? with
    | none =>
      simp only [hcl] at h
      exact Except.noConfusion h
    | some px =>
      simp only [hcl, Except.ok.injEq, Option.some.injEq] at h
      exact ⟨close, px, rfl, hcl, h.symm⟩

/-- `screenOne` raises only on the degenerate all-NaN close column. -/
theorem screenOne_ok_of_ne (cfg : Cfg) (env : ScanEnv) (tk : PyStr)
    (h : env.history tk ≠ some []) : ∃ o, screenOne cfg env tk = .ok o := by
  cases hh : env.history tk with
  | none => exact ⟨none, by simp only [screenOne, hh]⟩
  | some close =>
    cases hcl : close.getLast? with
    | none =>
      exfalso
      apply h
      rw [hh, List.getLast?_eq_none_iff.mp hcl]
    | some px =>
      exact ⟨some ⟨tk, classify (screenAcc cfg env tk close px).2,
        (screenAcc cfg env tk close px).1,
        pyRound3 (screenAcc cfg env tk close px).2,
        toBase cfg env px (resolveCcy tk)⟩, by simp only [screenOne, hh, hcl]⟩

/-- A produced record's `score` is the sum of the weights of its reasons. -/
theorem screenOne_score_sum (cfg : Cfg) (env : ScanEnv) (tk : PyStr)
    (r : SignalRecord) (h : screenOne cfg env tk = .ok (some r)) :
    r.score = (r.reasons.map weight).sum := by
  obtain ⟨close, px, _, _, hr⟩ := screenOne_some_shape cfg env tk r h
  subst hr
  simp only
  rw [screenAcc_inv, pyRound3_sum_weights]

/-- A produced record's `side` is the classification of its own
(rounding-fixed) score. -/
theorem screenOne_side_classify (cfg : Cfg) (env : ScanEnv) (tk : PyStr)
    (r : SignalRecord) (h : screenOne cfg env tk = .ok (some r)) :
    r.side = classify r.score := by
  obtain ⟨close, px, _, _, hr⟩ := screenOne_some_shape cfg env tk r h
  subst hr
  simp only
  rw [screenAcc_inv, pyRound3_sum_weights]

/-- `screen` on a one-element list is the one-element (or empty or
raising) outcome of `screenOne`, provided the cap allows at least one
ticker. -/
theorem screen_single (cfg : Cfg) (env : ScanEnv) (tk : PyStr)
    (mt : Option ℤ)
    (hc : 1 ≤ (match mt with
      | some m => if 0 < m then m.toNat else env.maxUniverse
      | none => env.maxUniverse)) :
    screen cfg env [tk] mt =
      match screenOne cfg env tk with
      | .error e => .error e
      | .ok none => .ok []
      | .ok (some r) => .ok [r] := by
  unfold screen
  rw [if_neg (by simp)]
  have hu : pySortedSet [tk] = [tk] := by
    unfold pySortedSet
    have hd : [tk].dedup = [tk] := by simp
    rw [hd, List.mergeSort_singleton]
  rw [hu]
  cases hcv : (match mt with
      | some m => if 0 < m then m.toNat else env.maxUniverse
      | none => env.maxUniverse) with
  | zero => rw [hcv] at hc; omega
  | succ n =>
    simp only [hcv, List.take_succ_cons, List.take_nil]
    cases hso : screenOne cfg env tk with
    | error e => simp [screenLoop, hso]
    | ok o =>
      cases o with
      | none => simp [screenLoop, hso]
      | some r => simp [screenLoop, hso]

/-! ## Claim theorems -/

/-- C1 (amended): for every single-symbol input, `screen([sym])` returns
zero records exactly when the history fetch raised or the frame is
absent/empty/column-less; raises an uncaught `IndexError` exactly when the
frame is non-empty but its close column is empty after `dropna()`; and
otherwise returns exactly one record whose `score` equals the sum of the
fixed weights of the reasons in its `reasons` list. -/
theorem c1_screen_single_sum (cfg : Cfg) (env : ScanEnv) (tk : PyStr)
    (hmax : 1 ≤ env.maxUniverse) :
    (env.history tk = none → screen cfg env [tk] none = .ok []) ∧
    (env.history tk = some [] → screen cfg env [tk] none = .error ()) ∧
    (∀ close, env.history tk = some close → close ≠ [] →
      ∃ r, screen cfg env [tk] none = .ok [r] ∧
        r.score = (r.reasons.map weight).sum) := by
  have hs := screen_single cfg env tk none hmax
  refine ⟨?_, ?_, ?_⟩
  · intro hh
    rw [hs]
    simp only [screenOne, hh]
  · intro hh
    rw [hs]
    simp only [screenOne, hh]
    rfl
  · intro close hh hne
    obtain ⟨px, hpx⟩ : ∃ px, close.getLast? = some px := by
      cases hcl : close.getLast? with
      | none => exact absurd (List.getLast?_eq_none_iff.mp hcl) hne
      | some px => exact ⟨px, rfl⟩
    have hso : screenOne cfg env tk =
        .ok (some ⟨tk, classify (screenAcc cfg env tk close px).2,
          (screenAcc cfg env tk close px).1,
          pyRound3 (screenAcc cfg env tk close px).2,
          toBase cfg env px (resolveCcy tk)⟩) := by
      simp only [screenOne, hh, hpx]
    refine ⟨_, ?_, screenOne_score_sum cfg env tk _ hso⟩
    rw [hs, hso]

/-- A configuration with every factor disabled and base currency USD
(used to instantiate hypotheses of the claim theorems on concrete input). -/
def cfgOff : Cfg :=
  { base_currency := "USD".data
    signals :=
      { momentum := { enabled := false, min_12m_mom := 2/25, skip_last_month := true }
        mean_reversion := { enabled := false, rsi_period := 14, rsi_buy_below := 30 }
        value := { enabled := false, max_pe := some 28, max_pb := some 5,
                   peg_max := some 2, ev_ebitda_max := some 18 }
        dividend := { enabled := false, min_yield := 3/100, max_payout := some (17/20) }
        quality := { enabled := false, min_roe := 12/100, min_gross_margin := 1/4,
                     min_fcf_margin := 1/20, min_rev_cagr_3y := 1/20,
                     max_net_debt_ebitda := 3 }
        technical_trend := { enabled := false, require_above_sma200 := true,
                             sma_fast := 50, sma_slow := 200 }
        news_sentiment := { enabled := false, min_avg_sentiment := 1/10 }
        breakout52w := { enabled := false, near_high_pct := 1/20 } } }

/-- A world with one single-price instrument and no other data. -/
def envOne : ScanEnv :=
  { history := fun _ => some [5]
    dividends_ttm := fun _ => none
    sentiment := fun _ => none
    facts := fun _ => {}
    fx := none
    maxUniverse := 120 }

/-- A world whose only instrument has a non-empty frame with an all-NaN
close column: the post-`dropna()` close series is empty. -/
def envNan : ScanEnv :=
  { history := fun _ => some []
    dividends_ttm := fun _ => none
    sentiment := fun _ => none
    facts := fun _ => {}
    fx := none
    maxUniverse := 120 }

/-- C1 counterexample: at a single-symbol input whose frame is non-empty
but whose close column is all NaN, `screen` does not return zero records —
it raises an uncaught `IndexError` at `float(close.iloc[-1])` — so the
claim's "zero records when the price series is absent or empty" is false
of the program at this input. -/
theorem c1_counterexample :
    envNan.history ("AAA".data) = some [] ∧
    screen cfgOff envNan [("AAA".data)] none = .error () := by
  refine ⟨rfl, ?_⟩
  rw [screen_single cfgOff envNan ("AAA".data) none (by decide)]
  rfl

/-- Witness for the amended C1 theorem at a concrete input. -/
theorem c1_witness :
    1 ≤ envOne.maxUniverse ∧
    ((envOne.history ("AAA".data) = none →
      screen cfgOff envOne [("AAA".data)] none = .ok []) ∧
     (envOne.history ("AAA".data) = some [] →
      screen cfgOff envOne [("AAA".data)] none = .error ()) ∧
     (∀ close, envOne.history ("AAA".data) = some close → close ≠ [] →
      ∃ r, screen cfgOff envOne [("AAA".data)] none = .ok [r] ∧
        r.score = (r.reasons.map weight).sum)) :=
  ⟨by decide, c1_screen_single_sum cfgOff envOne ("AAA".data) (by decide)⟩

/-- C9: a scored record's side is `BUY` exactly when its score is `≥ 1.5`,
`HOLD` exactly when it is in `[0.5, 1.5)`, and `PASS` exactly when it is
below `0.5`. -/
theorem c9_side_classification (cfg : Cfg) (env : ScanEnv) (tk : PyStr)
    (r : SignalRecord) (h : screenOne cfg env tk = .ok (some r)) :
    (r.side = Side.buy ↔ (3:ℚ)/2 ≤ r.score) ∧
    (r.side = Side.hold ↔ ((1:ℚ)/2 ≤ r.score ∧ r.score < 3/2)) ∧
    (r.side = Side.pass ↔ r.score < 1/2) := by
  have hc := screenOne_side_classify cfg env tk r h
  rw [hc]
  unfold classify
  by_cases h1 : (3:ℚ)/2 ≤ r.score
  · rw [if_pos h1]
    refine ⟨iff_of_true rfl h1, ?_, ?_⟩
    · exact iff_of_false (by decide) (fun hx => by linarith [hx.2])
    · exact iff_of_false (by decide) (by linarith)
  · rw [if_neg h1]
    by_cases h2 : (1:ℚ)/2 ≤ r.score
    · rw [if_pos h2]
      refine ⟨iff_of_false (by decide) h1, ?_, ?_⟩
      · exact iff_of_true rfl ⟨h2, by linarith⟩
      · exact iff_of_false (by decide) (by linarith)
    · rw [if_neg h2]
      refine ⟨iff_of_false (by decide) h1, ?_, ?_⟩
      · exact iff_of_false (by decide) (fun hx => h2 hx.1)
      · exact iff_of_true rfl (by linarith)

/-- The record `screenOne` produces for `envOne`'s instrument under the
all-disabled configuration. -/
def recOne : SignalRecord :=
  { ticker := "AAA".data, side := Side.pass, reasons := [], score := 0, px := 5 }

/-- Witness for C9 at a concrete input. -/
theorem c9_witness :
    screenOne cfgOff envOne ("AAA".data) = .ok (some recOne) ∧
    ((recOne.side = Side.buy ↔ (3:ℚ)/2 ≤ recOne.score) ∧
     (recOne.side = Side.hold ↔ ((1:ℚ)/2 ≤ recOne.score ∧ recOne.score < 3/2)) ∧
     (recOne.side = Side.pass ↔ recOne.score < 1/2)) := by
  have hup : pyUpper ("USD".data) = "USD".data := by decide
  have hccy : resolveCcy ("AAA".data) = "USD".data := by decide
  have hso : screenOne cfgOff envOne ("AAA".data) = .ok (some recOne) := by
    norm_num [screenOne, screenAcc, trendStage, momStage, rsiStage, valueStage,
      qualityStage, divStage, newsStage, breakoutStage, smaLast, addIf, classify,
      toBase, hup, hccy, envOne, cfgOff, recOne, pyRound3, roundHalfEven]
  exact ⟨hso, c9_side_classification cfgOff envOne ("AAA".data) recOne hso⟩

/-- C2: constructing a `Scanner` always raises `ImportError`: the loader
finds `get_provider` (whose call raises `NameError` on the unbound `YF`
and is swallowed), none of the probed class names is bound (the
`YFProvider = YF` alias itself died of `NameError` at import time, and the
exported `YFClient` is never probed), the module has no top-level
`history`/`info`/`fx`, so the final `ImportError` branch is reached and
`Scanner.__init__` propagates it. -/
theorem c2_scanner_init_import_error :
    getattrOf yfModuleAttrs ("get_provider".data) =
      some (.funcGlobal ("YF".data)) ∧
    pyCallOk yfModuleAttrs (.funcGlobal ("YF".data)) = false ∧
    getattrOf yfModuleAttrs ("YFProvider".data) = none ∧
    getattrOf yfModuleAttrs ("YF".data) = none ∧
    getattrOf yfModuleAttrs ("YahooProvider".data) = none ∧
    getattrOf yfModuleAttrs ("Provider".data) = none ∧
    getattrOf yfModuleAttrs ("Client".data) = none ∧
    getattrOf yfModuleAttrs ("YFClient".data) = some .cls ∧
    ("YFClient".data) ∉ classNames ∧
    hasModuleFns yfModuleAttrs = false ∧
    scannerInit = .importError := by
  decide

/-- C4: with no fresh cache entry and every underlying attempt raising a
rate-limit error, each data-access fetch returns its absent result instead
of raising, after exactly `maxRetries + 1` invocations. -/
theorem c4_retry_exhaustion {α : Type} (maxRetries : Nat)
    (histCall : Nat → COut (Option α))
    (infoCall : Nat → COut (List (PyStr × ℚ)))
    (fxCall : Nat → COut (Option ℚ))
    (h1 : histCall = fun _ => .exn)
    (h2 : infoCall = fun _ => .exn)
    (h3 : fxCall = fun _ => .exn) :
    yfHistory none maxRetries histCall = (none, maxRetries + 1) ∧
    yfInfo none maxRetries infoCall = ([], maxRetries + 1) ∧
    yfFx none maxRetries fxCall = (none, maxRetries + 1) := by
  refine ⟨?_, ?_, ?_⟩
  · simp [yfHistory, retrying, retryLoop_all_exn _ h1]
  · simp [yfInfo, retrying, retryLoop_all_exn _ h2]
  · simp [yfFx, retrying, retryLoop_all_exn _ h3]

/-- Witness for C4: `max_retries = 2` gives absence after exactly 3 attempts. -/
theorem c4_witness :
    ((fun _ : Nat => (COut.exn : COut (Option ℚ))) = fun _ => COut.exn) ∧
    (yfHistory (none : Option (Option ℚ)) 2 (fun _ => .exn) = (none, 3) ∧
     yfInfo none 2 (fun _ => .exn) = (([] : List (PyStr × ℚ)), 3) ∧
     yfFx none 2 (fun _ => .exn) = (none, 3)) :=
  ⟨rfl, c4_retry_exhaustion 2 _ _ _ rfl rfl rfl⟩

/-- C10: `_to_base` is the identity whenever the configured base currency
upper-cases to `"USD"` (in particular for `.AX` instruments, which resolve
to `AUD`); division by the AUD/USD rate (with its `0.65` fallback) happens
only when the base is `"AUD"` and the source currency is `"USD"`. -/
theorem c10_to_base_usd_identity (cfg : Cfg) (env : ScanEnv) (px : ℚ)
    (fromCcy tk : PyStr) :
    (pyUpper cfg.base_currency = ("USD".data) →
      toBase cfg env px fromCcy = px) ∧
    (pyUpper cfg.base_currency = ("USD".data) →
      (".AX".data).isSuffixOf tk = true →
      toBase cfg env px (resolveCcy tk) = px) ∧
    (pyUpper cfg.base_currency = ("AUD".data) → fromCcy = ("USD".data) →
      toBase cfg env px fromCcy = px / fxRate env) ∧
    (¬ (pyUpper cfg.base_currency = ("AUD".data) ∧ fromCcy = ("USD".data)) →
      toBase cfg env px fromCcy = px) := by
  have husdaud : ("USD".data : PyStr) ≠ ("AUD".data) := by decide
  have haudusd : ("AUD".data : PyStr) ≠ ("USD".data) := by decide
  have hid : pyUpper cfg.base_currency = ("USD".data) →
      ∀ fc : PyStr, toBase cfg env px fc = px := by
    intro hb fc
    unfold toBase
    rw [hb]
    by_cases hf : ("USD".data : PyStr) = fc
    · rw [if_pos hf]
    · rw [if_neg hf]
      by_cases hfa : fc = ("AUD".data)
      · rw [if_pos (Or.inr ⟨rfl, hfa⟩), if_pos rfl]
      · rw [if_neg (by
          rintro (⟨hc, _⟩ | ⟨_, hc⟩)
          · exact husdaud hc
          · exact hfa hc)]
  refine ⟨fun hb => hid hb fromCcy, fun hb _ => hid hb (resolveCcy tk), ?_, ?_⟩
  · intro hb hf
    unfold toBase
    rw [hb, hf]
    rw [if_neg haudusd, if_pos (Or.inl ⟨rfl, rfl⟩), if_neg haudusd]
  · intro hno
    unfold toBase
    by_cases hf : pyUpper cfg.base_currency = fromCcy
    · rw [if_pos hf]
    · rw [if_neg hf]
      by_cases hd : (pyUpper cfg.base_currency = ("AUD".data) ∧
          fromCcy = ("USD".data)) ∨
          (pyUpper cfg.base_currency = ("USD".data) ∧ fromCcy = ("AUD".data))
      · rcases hd with ⟨hb, hfc⟩ | ⟨hb, hfc⟩
        · exact absurd ⟨hb, hfc⟩ hno
        · rw [if_pos (Or.inr ⟨hb, hfc⟩), if_pos hb]
      · rw [if_neg hd]

/-- Witness for C10 at a concrete input: an AUD-priced instrument with a
USD base is reported unconverted. -/
theorem c10_witness :
    pyUpper cfgOff.base_currency = ("USD".data) ∧
    toBase cfgOff envOne 7 ("AUD".data) = 7 :=
  ⟨by decide,
   (c10_to_base_usd_identity cfgOff envOne 7 ("AUD".data) ("BHP.AX".data)).1
     (by decide)⟩

/-! ## Which reasons each stage can add (for the momentum claim) -/

/-- Membership after `addIf`. -/
theorem mem_addIf (x : Reason) (c : Bool) (r : Reason) (w : ℚ)
    (acc : List Reason × ℚ) :
    x ∈ (addIf c r w acc).1 ↔ x ∈ acc.1 ∨ (c = true ∧ x = r) := by
  cases c <;> simp [addIf]

/-- The trend block adds only the uptrend reason. -/
theorem mem_trendStage (t : TrendCfg) (close : List ℚ) (px : ℚ)
    (acc : List Reason × ℚ) (x : Reason) (hx : x ≠ Reason.uptrend) :
    (x ∈ (trendStage t close px acc).1) ↔ x ∈ acc.1 := by
  cases hf : smaLast close t.sma_fast with
  | error u => simp only [trendStage, hf]
  | ok o1 =>
    cases hs : smaLast close t.sma_slow with
    | error u => simp only [trendStage, hf, hs]
    | ok o2 =>
      simp only [trendStage, hf, hs]
      rw [mem_addIf]
      simp [hx]

/-- The momentum block fires its reason exactly when enabled, the 12-1
momentum is finite, and it meets the configured minimum. -/
theorem mem_momStage_mom12 (m : MomentumCfg) (close : List ℚ)
    (acc : List Reason × ℚ) :
    (Reason.mom12 ∈ (momStage m close acc).1) ↔
      Reason.mom12 ∈ acc.1 ∨
        (m.enabled = true ∧ ∃ v, mom121 close m.skip_last_month = some v ∧
          m.min_12m_mom ≤ v) := by
  unfold momStage
  by_cases he : m.enabled
  · rw [if_pos he]
    cases hm : mom121 close m.skip_last_month with
    | none => simp [he, hm]
    | some v =>
      rw [mem_addIf]
      simp [he, hm]
  · rw [if_neg he]
    simp [he]

/-- The momentum block adds only the momentum reason. -/
theorem mem_momStage_other (m : MomentumCfg) (close : List ℚ)
    (acc : List Reason × ℚ) (x : Reason) (hx : x ≠ Reason.mom12) :
    (x ∈ (momStage m close acc).1) ↔ x ∈ acc.1 := by
  unfold momStage
  by_cases he : m.enabled
  · rw [if_pos he]
    cases hm : mom121 close m.skip_last_month with
    | none => simp
    | some v => rw [mem_addIf]; simp [hx]
  · rw [if_neg he]

/-- The mean-reversion block fires its reason exactly when enabled, the
RSI is defined, and it is at or below the oversold threshold. -/
theorem mem_rsiStage_rsi (mr : MeanRevCfg) (close : List ℚ)
    (acc : List Reason × ℚ) :
    (Reason.rsiOversold ∈ (rsiStage mr close acc).1) ↔
      Reason.rsiOversold ∈ acc.1 ∨
        (mr.enabled = true ∧ ∃ v, rsiLast close mr.rsi_period = some v ∧
          v ≤ mr.rsi_buy_below) := by
  unfold rsiStage
  by_cases he : mr.enabled
  · rw [if_pos he]
    cases hr : rsiLast close mr.rsi_period with
    | none => simp [he, hr]
    | some v =>
      rw [mem_addIf]
      simp [he, hr]
  · rw [if_neg he]
    simp [he]

/-- The mean-reversion block adds only the RSI reason. -/
theorem mem_rsiStage_other (mr : MeanRevCfg) (close : List ℚ)
    (acc : List Reason × ℚ) (x : Reason) (hx : x ≠ Reason.rsiOversold) :
    (x ∈ (rsiStage mr close acc).1) ↔ x ∈ acc.1 := by
  unfold rsiStage
  by_cases he : mr.enabled
  · rw [if_pos he]
    cases hr : rsiLast close mr.rsi_period with
    | none => simp
    | some v => rw [mem_addIf]; simp [hx]
  · rw [if_neg he]

/-- Everything `_valuation_ok` appends is a valuation reason. -/
theorem mem_valuationOk (v : ValueCfg) (f : Facts) (x : Reason)
    (h : x ∈ (valuationOk v f).2.1) :
    x = Reason.peOk ∨ x = Reason.pbOk ∨ x = Reason.pegOk ∨
      x = Reason.evEbitdaOk := by
  unfold valuationOk at h
  simp only [mem_addIf, List.not_mem_nil, false_or] at h
  rcases h with (((⟨_, hx⟩ | ⟨_, hx⟩) | ⟨_, hx⟩) | ⟨_, hx⟩) <;> simp [hx]

/-- Everything `_quality_ok` appends is a quality reason. -/
theorem mem_qualityOk (q : QualityCfg) (f : Facts) (x : Reason)
    (h : x ∈ (qualityOk q f).2.1) :
    x = Reason.roeOk ∨ x = Reason.gmOk ∨ x = Reason.fcfOk ∨
      x = Reason.revCagrOk ∨ x = Reason.netDebtOk := by
  unfold qualityOk at h
  simp only [mem_addIf, List.not_mem_nil, false_or] at h
  rcases h with ((((⟨_, hx⟩ | ⟨_, hx⟩) | ⟨_, hx⟩) | ⟨_, hx⟩) | ⟨_, hx⟩) <;>
    simp [hx]

/-- The valuation block adds only valuation reasons. -/
theorem mem_valueStage_other (v : ValueCfg) (f : Facts)
    (acc : List Reason × ℚ) (x : Reason)
    (hx : ¬ (x = Reason.peOk ∨ x = Reason.pbOk ∨ x = Reason.pegOk ∨
      x = Reason.evEbitdaOk)) :
    (x ∈ (valueStage v f acc).1) ↔ x ∈ acc.1 := by
  unfold valueStage
  by_cases he : v.enabled
  · rw [if_pos he]
    simp only [List.mem_append]
    constructor
    · rintro (h | h)
      · exact h
      · exact absurd (mem_valuationOk v f x h) hx
    · exact Or.inl
  · rw [if_neg he]

/-- The quality block adds only quality reasons. -/
theorem mem_qualityStage_other (q : QualityCfg) (f : Facts)
    (acc : List Reason × ℚ) (x : Reason)
    (hx : ¬ (x = Reason.roeOk ∨ x = Reason.gmOk ∨ x = Reason.fcfOk ∨
      x = Reason.revCagrOk ∨ x = Reason.netDebtOk)) :
    (x ∈ (qualityStage q f acc).1) ↔ x ∈ acc.1 := by
  unfold qualityStage
  by_cases he : q.enabled
  · rw [if_pos he]
    simp only [List.mem_append]
    constructor
    · rintro (h | h)
      · exact h
      · exact absurd (mem_qualityOk q f x h) hx
    · exact Or.inl
  · rw [if_neg he]

/-- The dividend block adds only dividend reasons. -/
theorem mem_divStage_other (d : DividendCfg) (f : Facts) (divTtm : Option ℚ)
    (acc : List Reason × ℚ) (x : Reason)
    (hx : ¬ (x = Reason.divYieldOk ∨ x = Reason.payoutOk)) :
    (x ∈ (divStage d f divTtm acc).1) ↔ x ∈ acc.1 := by
  unfold divStage
  by_cases he : d.enabled
  · rw [if_pos he]
    rw [mem_addIf, mem_addIf]
    constructor
    · rintro ((h | ⟨_, hx2⟩) | ⟨_, hx2⟩)
      · exact h
      · exact absurd (Or.inl hx2) hx
      · exact absurd (Or.inr hx2) hx
    · exact fun h => Or.inl (Or.inl h)
  · rw [if_neg he]

/-- The news block adds only the news reason. -/
theorem mem_newsStage_other (n : NewsCfg) (sm : Option ℚ)
    (acc : List Reason × ℚ) (x : Reason) (hx : x ≠ Reason.newsOk) :
    (x ∈ (newsStage n sm acc).1) ↔ x ∈ acc.1 := by
  unfold newsStage
  by_cases he : n.enabled
  · rw [if_pos he]
    cases sm with
    | none => simp
    | some v => rw [mem_addIf]; simp [hx]
  · rw [if_neg he]

/-- The breakout block adds only the 52-week-high reason. -/
theorem mem_breakoutStage_other (b : BreakoutCfg) (close : List ℚ) (px : ℚ)
    (acc : List Reason × ℚ) (x : Reason) (hx : x ≠ Reason.near52w) :
    (x ∈ (breakoutStage b close px acc).1) ↔ x ∈ acc.1 := by
  unfold breakoutStage
  by_cases he : b.enabled
  · rw [if_pos he]
    cases htp : (if 252 ≤ close.length then close.drop (close.length - 252)
        else close) with
    | nil => simp
    | cons hd tl => rw [mem_addIf]; simp [hx]
  · rw [if_neg he]

/-- The momentum reason in a produced record is exactly the momentum
block's firing condition. -/
theorem screenAcc_mom12 (cfg : Cfg) (env : ScanEnv) (tk : PyStr)
    (close : List ℚ) (px : ℚ) :
    (Reason.mom12 ∈ (screenAcc cfg env tk close px).1) ↔
      (cfg.signals.momentum.enabled = true ∧
        ∃ v, mom121 close cfg.signals.momentum.skip_last_month = some v ∧
          cfg.signals.momentum.min_12m_mom ≤ v) := by
  unfold screenAcc
  rw [mem_breakoutStage_other _ _ _ _ _ (by decide),
      mem_newsStage_other _ _ _ _ (by decide),
      mem_divStage_other _ _ _ _ _ (by decide),
      mem_qualityStage_other _ _ _ _ (by decide),
      mem_valueStage_other _ _ _ _ (by decide),
      mem_rsiStage_other _ _ _ _ (by decide),
      mem_momStage_mom12,
      mem_trendStage _ _ _ _ _ (by decide)]
  simp

/-- The RSI reason in a produced record is exactly the mean-reversion
block's firing condition (independent of the series length). -/
theorem screenAcc_rsi (cfg : Cfg) (env : ScanEnv) (tk : PyStr)
    (close : List ℚ) (px : ℚ) :
    (Reason.rsiOversold ∈ (screenAcc cfg env tk close px).1) ↔
      (cfg.signals.mean_reversion.enabled = true ∧
        ∃ v, rsiLast close cfg.signals.mean_reversion.rsi_period = some v ∧
          v ≤ cfg.signals.mean_reversion.rsi_buy_below) := by
  unfold screenAcc
  rw [mem_breakoutStage_other _ _ _ _ _ (by decide),
      mem_newsStage_other _ _ _ _ (by decide),
      mem_divStage_other _ _ _ _ _ (by decide),
      mem_qualityStage_other _ _ _ _ (by decide),
      mem_valueStage_other _ _ _ _ (by decide),
      mem_rsiStage_rsi,
      mem_momStage_other _ _ _ _ (by decide),
      mem_trendStage _ _ _ _ _ (by decide)]
  simp

/-- C5 (amended): the momentum factor contributes its reason iff it is
enabled and the computed 12-1 momentum is finite — which requires at least
260 (not 253) trading days — and meets the configured minimum; with fewer
than 260 days it abstains, while the RSI factor still evaluates by its own
condition regardless of the series length. -/
theorem c5_momentum_needs_260_days (cfg : Cfg) (env : ScanEnv) (tk : PyStr)
    (r : SignalRecord) (close : List ℚ)
    (hh : env.history tk = some close)
    (h : screenOne cfg env tk = .ok (some r)) :
    ((Reason.mom12 ∈ r.reasons) ↔
      (cfg.signals.momentum.enabled = true ∧
        ∃ v, mom121 close cfg.signals.momentum.skip_last_month = some v ∧
          cfg.signals.momentum.min_12m_mom ≤ v)) ∧
    (close.length < 260 → Reason.mom12 ∉ r.reasons) ∧
    ((Reason.rsiOversold ∈ r.reasons) ↔
      (cfg.signals.mean_reversion.enabled = true ∧
        ∃ v, rsiLast close cfg.signals.mean_reversion.rsi_period = some v ∧
          v ≤ cfg.signals.mean_reversion.rsi_buy_below)) := by
  obtain ⟨close', px, hh', hgl, hr⟩ := screenOne_some_shape cfg env tk r h
  rw [hh] at hh'
  obtain rfl : close = close' := by injection hh'
  subst hr
  refine ⟨screenAcc_mom12 cfg env tk close px, ?_,
    screenAcc_rsi cfg env tk close px⟩
  intro hlen hmem
  rw [screenAcc_mom12 cfg env tk close px] at hmem
  obtain ⟨_, v, hv, _⟩ := hmem
  rw [mom121, if_pos hlen] at hv
  exact Option.noConfusion hv

/-- A 253-trading-day close series: 232 days at price 1, then 21 days at
price 2 (so the skip-month 12-1 return is `2/1 - 1 = 1`). -/
def close253 : List ℚ := (List.replicate 232 1 ++ List.replicate 20 2) ++ [2]

/-- A configuration in which only the momentum factor is enabled, with
minimum 12-month momentum 5%. -/
def cfgMom : Cfg :=
  { cfgOff with
    signals :=
      { cfgOff.signals with
        momentum := { enabled := true, min_12m_mom := 1/20,
                      skip_last_month := true } } }

/-- A world whose only instrument carries the 253-day series. -/
def envMom : ScanEnv :=
  { history := fun _ => some close253
    dividends_ttm := fun _ => none
    sentiment := fun _ => none
    facts := fun _ => {}
    fx := none
    maxUniverse := 120 }

theorem close253_length : close253.length = 253 := by
  simp only [close253, List.length_append, List.length_replicate,
    List.length_cons, List.length_nil]

/-- A disabled trend block changes nothing. -/
theorem trendStage_disabled (t : TrendCfg) (close : List ℚ) (px : ℚ)
    (acc : List Reason × ℚ) (h : t.enabled = false) :
    trendStage t close px acc = acc := by
  cases hf : smaLast close t.sma_fast with
  | error u => simp only [trendStage, hf]
  | ok o1 =>
    cases hs : smaLast close t.sma_slow with
    | error u => simp only [trendStage, hf, hs]
    | ok o2 => simp only [trendStage, hf, hs, h, Bool.false_and, addIf, if_neg]; rfl

/-- A non-finite 12-1 momentum leaves the accumulator unchanged. -/
theorem momStage_nan (m : MomentumCfg) (close : List ℚ)
    (acc : List Reason × ℚ) (h : mom121 close m.skip_last_month = none) :
    momStage m close acc = acc := by
  unfold momStage
  by_cases he : m.enabled
  · rw [if_pos he, h]
  · rw [if_neg he]

/-- A disabled mean-reversion block changes nothing. -/
theorem rsiStage_disabled (mr : MeanRevCfg) (close : List ℚ)
    (acc : List Reason × ℚ) (h : mr.enabled = false) :
    rsiStage mr close acc = acc := by
  unfold rsiStage
  rw [h]
  simp

/-- A disabled valuation block changes nothing. -/
theorem valueStage_disabled (v : ValueCfg) (f : Facts)
    (acc : List Reason × ℚ) (h : v.enabled = false) :
    valueStage v f acc = acc := by
  unfold valueStage
  rw [h]
  simp

/-- A disabled quality block changes nothing. -/
theorem qualityStage_disabled (q : QualityCfg) (f : Facts)
    (acc : List Reason × ℚ) (h : q.enabled = false) :
    qualityStage q f acc = acc := by
  unfold qualityStage
  rw [h]
  simp

/-- A disabled dividend block changes nothing. -/
theorem divStage_disabled (d : DividendCfg) (f : Facts) (divTtm : Option ℚ)
    (acc : List Reason × ℚ) (h : d.enabled = false) :
    divStage d f divTtm acc = acc := by
  unfold divStage
  rw [h]
  simp

/-- A disabled news block changes nothing. -/
theorem newsStage_disabled (n : NewsCfg) (sm : Option ℚ)
    (acc : List Reason × ℚ) (h : n.enabled = false) :
    newsStage n sm acc = acc := by
  unfold newsStage
  rw [h]
  simp

/-- A disabled breakout block changes nothing. -/
theorem breakoutStage_disabled (b : BreakoutCfg) (close : List ℚ) (px : ℚ)
    (acc : List Reason × ℚ) (h : b.enabled = false) :
    breakoutStage b close px acc = acc := by
  unfold breakoutStage
  rw [h]
  simp

/-- On the 253-day series the momentum-only accumulator stays empty. -/
theorem screenAcc_envMom :
    screenAcc cfgMom envMom ("AAA".data) close253 2 = ([], 0) := by
  have hmom : mom121 close253 cfgMom.signals.momentum.skip_last_month = none := by
    rw [mom121, if_pos (by rw [close253_length]; omega)]
  unfold screenAcc
  rw [trendStage_disabled _ _ _ _ rfl]
  rw [momStage_nan _ _ _ hmom]
  rw [rsiStage_disabled _ _ _ rfl, valueStage_disabled _ _ _ rfl,
      qualityStage_disabled _ _ _ rfl, divStage_disabled _ _ _ _ rfl,
      newsStage_disabled _ _ _ rfl, breakoutStage_disabled _ _ _ _ rfl]

/-- The record the momentum-only scan produces on the 253-day series. -/
def recMom : SignalRecord :=
  { ticker := "AAA".data, side := Side.pass, reasons := [], score := 0, px := 2 }

theorem screenOne_envMom :
    screenOne cfgMom envMom ("AAA".data) = .ok (some recMom) := by
  have hgl : close253.getLast? = some 2 := by
    rw [close253, List.getLast?_concat]
  have hhist : envMom.history ("AAA".data) = some close253 := rfl
  have hclassify : classify (0 : ℚ) = Side.pass := by
    norm_num [classify]
  have hround : pyRound3 (0 : ℚ) = 0 := by
    simpa using pyRound3_tenths 0
  have hccy : resolveCcy ("AAA".data) = "USD".data := by decide
  have hup : pyUpper cfgMom.base_currency = "USD".data := by decide
  have hbase : toBase cfgMom envMom 2 ("USD".data) = 2 := by
    unfold toBase
    rw [hup, if_pos rfl]
  simp only [screenOne, hhist, hgl]
  rw [screenAcc_envMom]
  simp only [hclassify, hround, hccy, hbase, recMom]

/-- C5 counterexample: a 253-day series whose 12-1 skip-month return is
`1 ≥ 5%` with momentum enabled — the spec's 253-day rule predicts a
momentum reason, but the code (threshold 260) abstains. -/
theorem c5_counterexample :
    close253.length = 253 ∧
    cfgMom.signals.momentum.enabled = true ∧
    close253.getD (close253.length - 21) 0 = 2 ∧
    close253.getD (close253.length - 252) 0 = 1 ∧
    (1 : ℚ)/20 ≤ 2/1 - 1 ∧
    screenOne cfgMom envMom ("AAA".data) = .ok (some recMom) ∧
    Reason.mom12 ∉ recMom.reasons := by
  refine ⟨close253_length, rfl, ?_, ?_, by norm_num, screenOne_envMom, by simp [recMom]⟩
  · rw [close253_length]
    show close253.getD 232 0 = 2
    rw [close253, List.getD_eq_getElem?_getD]
    simp only [List.getElem?_append, List.length_append, List.length_replicate,
      List.getElem?_replicate]
    norm_num
  · rw [close253_length]
    show close253.getD 1 0 = 1
    rw [close253, List.getD_eq_getElem?_getD]
    simp only [List.getElem?_append, List.length_append, List.length_replicate,
      List.getElem?_replicate]
    norm_num

/-- Witness for the amended C5 theorem at the concrete 253-day input. -/
theorem c5_witness :
    envMom.history ("AAA".data) = some close253 ∧
    screenOne cfgMom envMom ("AAA".data) = .ok (some recMom) ∧
    (((Reason.mom12 ∈ recMom.reasons) ↔
      (cfgMom.signals.momentum.enabled = true ∧
        ∃ v, mom121 close253 cfgMom.signals.momentum.skip_last_month = some v ∧
          cfgMom.signals.momentum.min_12m_mom ≤ v)) ∧
     (close253.length < 260 → Reason.mom12 ∉ recMom.reasons) ∧
     ((Reason.rsiOversold ∈ recMom.reasons) ↔
      (cfgMom.signals.mean_reversion.enabled = true ∧
        ∃ v, rsiLast close253 cfgMom.signals.mean_reversion.rsi_period = some v ∧
          v ≤ cfgMom.signals.mean_reversion.rsi_buy_below))) :=
  ⟨rfl, screenOne_envMom,
   c5_momentum_needs_260_days cfgMom envMom ("AAA".data) recMom close253 rfl
     screenOne_envMom⟩

/-! ## Scan-queue claims -/

/-- After popping all of a fresh queue none of whose symbols hits the
degenerate all-NaN-close history, the run succeeds, the queue is empty,
and the results are exactly the records of the tickers whose screening
produced one, in order. -/
theorem stepN_fresh (cfg : Cfg) (env : ScanEnv) :
    ∀ (syms : List PyStr) (acc : List SignalRecord),
      (∀ tk ∈ syms, env.history tk ≠ some []) →
      stepN cfg env syms.length ⟨syms, acc⟩ =
        .ok ⟨[], acc ++ syms.filterMap (fun tk =>
          match screen cfg env [tk] (some 1) with
          | .ok res => res.head?
          | .error e => none)⟩ := by
  intro syms
  induction syms with
  | nil => intro acc _; simp [stepN]
  | cons tk rest ih =>
    intro acc hok
    obtain ⟨o, hso⟩ := screenOne_ok_of_ne cfg env tk (hok tk (by simp))
    have hscr := screen_single cfg env tk (some 1) (Nat.le_refl 1)
    rw [hso] at hscr
    show stepN cfg env (rest.length + 1) ⟨tk :: rest, acc⟩ = _
    rw [stepN]
    cases o with
    | none =>
      have hns : nextStep cfg env ⟨tk :: rest, acc⟩ =
          .ok (⟨false, rest.length, ([] : List SignalRecord).head?⟩,
               ⟨rest, acc ++ []⟩) := by
        simp only [nextStep, hscr]
      simp only [hns]
      rw [ih (acc ++ []) (fun t ht => hok t (List.mem_cons_of_mem tk ht))]
      simp [List.filterMap_cons, hscr]
    | some r =>
      have hns : nextStep cfg env ⟨tk :: rest, acc⟩ =
          .ok (⟨false, rest.length, ([r] : List SignalRecord).head?⟩,
               ⟨rest, acc ++ [r]⟩) := by
        simp only [nextStep, hscr]
      simp only [hns]
      rw [ih (acc ++ [r]) (fun t ht => hok t (List.mem_cons_of_mem tk ht))]
      simp [List.filterMap_cons, hscr]

/-- C3 (amended): provided no queued symbol has the degenerate all-NaN
close history (which would raise an uncaught `IndexError` out of
`next_step` before any file is rewritten), after `n` consecutive
`next_step` calls from a freshly prepared queue of `n` symbols the queue
is empty (so the following call reports `done = true` and `queue_status`
reports `remaining = 0`), and `results_all()` holds one record per symbol
whose screening produced one — symbols with no data are dropped from the
queue without a persisted placeholder (hence never retried in the pass),
so there are at most `n` results. -/
theorem c3_queue_drain (cfg : Cfg) (env : ScanEnv) (syms : List PyStr)
    (hok : ∀ tk ∈ syms, env.history tk ≠ some []) :
    ∃ final : QState,
      stepN cfg env syms.length ⟨syms, []⟩ = .ok final ∧
      final.queue = [] ∧
      nextStep cfg env final = .ok (⟨true, 0, none⟩, final) ∧
      (queueStatus final).remaining = 0 ∧
      resultsAll final = syms.filterMap (fun tk =>
        match screen cfg env [tk] (some 1) with
        | .ok res => res.head?
        | .error e => none) ∧
      (resultsAll final).length ≤ syms.length := by
  refine ⟨_, stepN_fresh cfg env syms [] hok, rfl, rfl, rfl,
    by simp [resultsAll], ?_⟩
  simp only [resultsAll, List.nil_append]
  exact List.length_filterMap_le _ _

/-- A world with no price data at all. -/
def envNone : ScanEnv :=
  { history := fun _ => none
    dividends_ttm := fun _ => none
    sentiment := fun _ => none
    facts := fun _ => {}
    fx := none
    maxUniverse := 120 }

/-- C3 counterexample: a freshly prepared one-symbol queue whose symbol
has no data. After `n = 1` step the results file has 0 entries, not 1 (no
placeholder is persisted), and that step reports `done = false`. -/
theorem c3_counterexample :
    stepN cfgOff envNone 1 ⟨[("AAA".data)], []⟩ = .ok ⟨[], []⟩ ∧
    nextStep cfgOff envNone ⟨[("AAA".data)], []⟩ =
      .ok (⟨false, 0, none⟩, ⟨[], []⟩) ∧
    ¬ (∃ st : QState, stepN cfgOff envNone 1 ⟨[("AAA".data)], []⟩ = .ok st ∧
        st.results.length = 1) := by
  have hso : screenOne cfgOff envNone ("AAA".data) = .ok none := rfl
  have hscr : screen cfgOff envNone [("AAA".data)] (some 1) = .ok [] := by
    rw [screen_single cfgOff envNone ("AAA".data) (some 1) (by decide), hso]
  have hstep : nextStep cfgOff envNone ⟨[("AAA".data)], []⟩ =
      .ok (⟨false, 0, none⟩, ⟨[], []⟩) := by
    simp only [nextStep, hscr]
    rfl
  have hrun : stepN cfgOff envNone 1 ⟨[("AAA".data)], []⟩ = .ok ⟨[], []⟩ := by
    rw [stepN]
    simp only [hstep]
    rfl
  refine ⟨hrun, hstep, ?_⟩
  rintro ⟨st, hst, hlen⟩
  rw [hrun] at hst
  injection hst with hst2
  rw [← hst2] at hlen
  exact Nat.noConfusion hlen

/-- Witness for the amended C3 theorem at a concrete one-symbol queue with
data. -/
theorem c3_witness :
    (∀ tk ∈ [("AAA".data)], envOne.history tk ≠ some []) ∧
    (∃ final : QState,
      stepN cfgOff envOne 1 ⟨[("AAA".data)], []⟩ = .ok final ∧
      final.queue = [] ∧
      nextStep cfgOff envOne final = .ok (⟨true, 0, none⟩, final) ∧
      (queueStatus final).remaining = 0 ∧
      resultsAll final = [("AAA".data)].filterMap (fun tk =>
        match screen cfgOff envOne [tk] (some 1) with
        | .ok res => res.head?
        | .error e => none) ∧
      (resultsAll final).length ≤ 1) := by
  have hok : ∀ tk ∈ [("AAA".data)], envOne.history tk ≠ some [] := by
    intro tk _
    simp [envOne]
  exact ⟨hok, c3_queue_drain cfgOff envOne [("AAA".data)] hok⟩

/-! ## Universe-resolver claims -/

/-- `pySortedSet` does not change membership. -/
theorem mem_pySortedSet (x : PyStr) (l : List PyStr) :
    x ∈ pySortedSet l ↔ x ∈ l := by
  unfold pySortedSet
  rw [List.mem_mergeSort, List.mem_dedup]

/-- `pySortedSet` output is sorted. -/
theorem pySortedSet_sorted (l : List PyStr) :
    (pySortedSet l).Pairwise (fun a b => pyStrLe a b = true) := by
  unfold pySortedSet
  exact List.sorted_mergeSort
    (fun a b c hab hbc => pyStrLe_trans a b c hab hbc)
    (fun a b => by rcases pyStrLe_total a b with h | h <;> simp [h])
    l.dedup

/-- `pySortedSet` output has no duplicates. -/
theorem pySortedSet_nodup (l : List PyStr) : (pySortedSet l).Nodup :=
  (List.mergeSort_perm l.dedup pyStrLe).nodup_iff.mpr (List.nodup_dedup l)

/-- `pySortedSet` of the empty list. -/
theorem pySortedSet_nil : pySortedSet [] = [] := by
  simp [pySortedSet]

/-- Reading back lines that are already stripped and non-blank returns
them unchanged. -/
theorem stripLines_eq_self (l : List PyStr)
    (h : ∀ x ∈ l, pyStrip x = x ∧ x ≠ []) : stripLines l = l := by
  induction l with
  | nil => rfl
  | cons x xs ih =>
    obtain ⟨hx1, hx2⟩ := h x (by simp)
    simp only [stripLines, List.filterMap_cons, hx1, if_neg hx2]
    have := ih (fun y hy => h y (List.mem_cons_of_mem x hy))
    simp only [stripLines] at this
    rw [this]

/-- On a cache miss, `resolve_universe` is `finishResolve` on some
fetched cascade output. -/
theorem resolveUniverse_miss (env : UnivEnv) (name : PyStr)
    (hmiss : readCachedUniverse env (pyLower (pyStrip name)) = none) :
    ∃ fetched, resolveUniverse env name =
      finishResolve env (pyLower (pyStrip name)) fetched := by
  simp only [resolveUniverse, hmiss]
  exact ⟨_, rfl⟩

/-- The syms field of `finishResolve` is the normalized sorted set. -/
theorem finishResolve_syms (env : UnivEnv) (key : PyStr)
    (fetched : List PyStr × Bool) :
    (finishResolve env key fetched).syms =
      pySortedSet ((fetched.1.map (fun s => pyUpper (pyStrip s))).filter
        (fun s => s ≠ [])) := by
  simp only [finishResolve]
  split <;> rfl

/-- A non-empty `finishResolve` result is written back under its key. -/
theorem finishResolve_store (env : UnivEnv) (key : PyStr)
    (fetched : List PyStr × Bool)
    (hne : (finishResolve env key fetched).syms ≠ []) :
    (finishResolve env key fetched).wrote = true ∧
    (finishResolve env key fetched).cacheAfter key =
      some ((finishResolve env key fetched).syms, env.now) := by
  unfold finishResolve at hne ⊢
  set normed := pySortedSet ((fetched.1.map (fun s => pyUpper (pyStrip s))).filter
    (fun s => s ≠ [])) with hn
  by_cases hc : normed = []
  · rw [if_pos hc] at hne
    exact absurd hc hne
  · rw [if_neg hc] at hne ⊢
    refine ⟨rfl, ?_⟩
    simp

/-- Members of a resolved (cache-miss) universe are normalized symbols. -/
theorem finishResolve_mem (env : UnivEnv) (key : PyStr)
    (fetched : List PyStr × Bool) (x : PyStr)
    (hx : x ∈ (finishResolve env key fetched).syms) :
    (∃ s, x = pyUpper (pyStrip s)) ∧ pyStrip x = x ∧ pyUpper x = x ∧ x ≠ [] := by
  rw [finishResolve_syms, mem_pySortedSet, List.mem_filter] at hx
  obtain ⟨hmem, hne⟩ := hx
  rw [List.mem_map] at hmem
  obtain ⟨s, _, hs⟩ := hmem
  subst hs
  refine ⟨⟨s, rfl⟩, pyStrip_pyUpper_pyStrip s, pyUpper_idem _, by simpa using hne⟩

/-- C8 (amended): a cache-miss resolution returns a deduplicated, sorted
list of stripped, upper-cased, non-blank symbol strings, and a non-empty
result is written back to the cache for its key, stamped now (the suffix
rewriting for ASX symbols happens only inside the ASX200 live fetcher;
cache hits return the cached lines as-is without rewriting). -/
theorem c8_normalized_and_written (env : UnivEnv) (name : PyStr)
    (hmiss : readCachedUniverse env (pyLower (pyStrip name)) = none) :
    (resolveUniverse env name).syms.Pairwise (fun a b => pyStrLe a b = true) ∧
    (resolveUniverse env name).syms.Nodup ∧
    (∀ x ∈ (resolveUniverse env name).syms,
      (∃ s, x = pyUpper (pyStrip s)) ∧ pyStrip x = x ∧ pyUpper x = x ∧
        x ≠ []) ∧
    ((resolveUniverse env name).syms ≠ [] →
      (resolveUniverse env name).wrote = true ∧
      (resolveUniverse env name).cacheAfter (pyLower (pyStrip name)) =
        some ((resolveUniverse env name).syms, env.now)) := by
  obtain ⟨fetched, heq⟩ := resolveUniverse_miss env name hmiss
  rw [heq]
  refine ⟨?_, ?_, ?_, ?_⟩
  · rw [finishResolve_syms]
    exact pySortedSet_sorted _
  · rw [finishResolve_syms]
    exact pySortedSet_nodup _
  · exact fun x hx => finishResolve_mem env _ fetched x hx
  · exact finishResolve_store env _ fetched

/-- A universe cache whose only entry is a fresh lower-case line. -/
def envLower : UnivEnv :=
  { store := fun k => if k = ("k".data) then some ([("ab".data)], 0) else none
    now := 0
    ttlHours := 24
    liveSp500 := none
    liveAsx200 := none
    bundled := fun _ => none }

/-- The fresh cache hit on `envLower` returns the raw cached line. -/
theorem resolveUniverse_envLower :
    resolveUniverse envLower ("k".data) =
      ⟨[("ab".data)], envLower.store, false, false⟩ := by
  have hk : pyLower (pyStrip ("k".data)) = ("k".data) := by decide
  have hstrip : stripLines [("ab".data)] = [("ab".data)] := by decide
  have hrc : readCachedUniverse envLower (pyLower (pyStrip ("k".data))) =
      some [("ab".data)] := by
    rw [hk]
    simp only [readCachedUniverse,
      show envLower.store ("k".data) = some ([("ab".data)], 0) from rfl, hstrip]
    rw [if_pos (by norm_num [envLower]), if_neg (by decide)]
  simp only [resolveUniverse, hrc]

/-- C8 counterexample: a fresh cache hit returns `["ab"]` — not
upper-cased — and performs no write-back, refuting the unconditional
normalization and write-back claim. -/
theorem c8_counterexample :
    (resolveUniverse envLower ("k".data)).syms = [("ab".data)] ∧
    pyUpper ("ab".data) ≠ ("ab".data) ∧
    (resolveUniverse envLower ("k".data)).wrote = false := by
  rw [resolveUniverse_envLower]
  exact ⟨rfl, by decide, rfl⟩

/-- A bundled one-symbol universe behind a cold cache. -/
def envBun : UnivEnv :=
  { store := fun _ => none
    now := 0
    ttlHours := 24
    liveSp500 := none
    liveAsx200 := none
    bundled := fun nm => if nm = ("u1".data) then some [("bhp".data)] else none }

/-- Witness for the amended C8 theorem at a concrete cache-miss input. -/
theorem c8_witness :
    readCachedUniverse envBun (pyLower (pyStrip ("file:u1".data))) = none ∧
    ((resolveUniverse envBun ("file:u1".data)).syms.Pairwise
        (fun a b => pyStrLe a b = true) ∧
     (resolveUniverse envBun ("file:u1".data)).syms.Nodup ∧
     (∀ x ∈ (resolveUniverse envBun ("file:u1".data)).syms,
       (∃ s, x = pyUpper (pyStrip s)) ∧ pyStrip x = x ∧ pyUpper x = x ∧
         x ≠ []) ∧
     ((resolveUniverse envBun ("file:u1".data)).syms ≠ [] →
       (resolveUniverse envBun ("file:u1".data)).wrote = true ∧
       (resolveUniverse envBun ("file:u1".data)).cacheAfter
           (pyLower (pyStrip ("file:u1".data))) =
         some ((resolveUniverse envBun ("file:u1".data)).syms, envBun.now))) :=
  ⟨rfl, c8_normalized_and_written envBun ("file:u1".data) rfl⟩

/-- C6 (amended): when the cache misses, the live fetches raise, and every
bundled file is missing, `resolve_universe` returns the empty list — there
is no built-in seed list of last resort. -/
theorem c6_all_sources_fail_empty (env : UnivEnv) (name : PyStr)
    (hmiss : readCachedUniverse env (pyLower (pyStrip name)) = none)
    (h1 : env.liveSp500 = none) (h2 : env.liveAsx200 = none)
    (h3 : env.bundled = fun _ => none) :
    (resolveUniverse env name).syms = [] := by
  have hb : ∀ nm, readBundled env nm = none := by
    intro nm
    simp [readBundled, h3]
  simp only [resolveUniverse, hmiss, h1, h2, hb, Option.getD_none]
  by_cases k1 : pyLower (pyStrip name) = ("auto:sp500".data)
  · rw [if_pos k1, finishResolve_syms]
    simp [pySortedSet_nil]
  · rw [if_neg k1]
    by_cases k2 : pyLower (pyStrip name) = ("auto:asx200".data)
    · rw [if_pos k2, finishResolve_syms]
      simp [pySortedSet_nil]
    · rw [if_neg k2]
      by_cases k3 : ("file:".data).isPrefixOf (pyLower (pyStrip name)) = true
      · rw [if_pos k3, finishResolve_syms]
        simp [pySortedSet_nil]
      · rw [if_neg k3, finishResolve_syms]
        simp [pySortedSet_nil]

/-- A world in which the cache, both live fetches and every bundled file
fail. -/
def envFail : UnivEnv :=
  { store := fun _ => none
    now := 0
    ttlHours := 24
    liveSp500 := none
    liveAsx200 := none
    bundled := fun _ => none }

/-- C6 counterexample: for the known universe name `auto:sp500` with every
source failing, `resolve_universe` returns the empty list — no built-in
seed list exists. -/
theorem c6_counterexample :
    (resolveUniverse envFail ("auto:sp500".data)).syms = [] := by
  have hk : pyLower (pyStrip ("auto:sp500".data)) = ("auto:sp500".data) := by
    decide
  have hmiss : readCachedUniverse envFail
      (pyLower (pyStrip ("auto:sp500".data))) = none := rfl
  have hb : readBundled envFail
      (pyRemoveAll ("auto:".data) ("auto:sp500".data)) = none := rfl
  simp only [resolveUniverse, hmiss, hk, eq_self_iff_true, if_true,
    show envFail.liveSp500 = none from rfl, hb, Option.getD_none]
  show (finishResolve envFail (pyLower (pyStrip ("auto:sp500".data)))
    ([], true)).syms = []
  rw [finishResolve_syms]
  simp [pySortedSet_nil]

/-- Witness for the amended C6 theorem at the concrete all-failing world. -/
theorem c6_witness :
    readCachedUniverse envFail (pyLower (pyStrip ("auto:sp500".data))) = none ∧
    envFail.liveSp500 = none ∧ envFail.liveAsx200 = none ∧
    (envFail.bundled = fun _ => none) ∧
    (resolveUniverse envFail ("auto:sp500".data)).syms = [] :=
  ⟨rfl, rfl, rfl, rfl,
   c6_all_sources_fail_empty envFail ("auto:sp500".data) rfl rfl rfl rfl⟩

/-- Anatomy of a cache hit: the stored entry exists, is fresh, and its
stripped lines are the non-empty hit value. -/
theorem readCachedUniverse_some (env : UnivEnv) (key : PyStr)
    (c : List PyStr) (h : readCachedUniverse env key = some c) :
    ∃ lines mtime, env.store key = some (lines, mtime) ∧
      (env.now - mtime) / 3600 ≤ env.ttlHours ∧ stripLines lines = c ∧
      c ≠ [] := by
  cases hs : env.store key with
  | none =>
    simp only [readCachedUniverse, hs] at h
    exact Option.noConfusion h
  | some p =>
    obtain ⟨lines, mtime⟩ := p
    simp only [readCachedUniverse, hs] at h
    by_cases hfr : (env.now - mtime) / 3600 ≤ env.ttlHours
    · rw [if_pos hfr] at h
      by_cases hemp : stripLines lines = []
      · rw [if_pos hemp] at h
        exact Option.noConfusion h
      · rw [if_neg hemp] at h
        injection h with hcc
        refine ⟨lines, mtime, rfl, hfr, hcc, ?_⟩
        rw [← hcc]
        exact hemp
    · rw [if_neg hfr] at h
      exact Option.noConfusion h

/-- Rebuilding a cache read from its ingredients. -/
theorem readCachedUniverse_eq_some (env : UnivEnv) (key : PyStr)
    (lines : List PyStr) (mtime : ℚ) (c : List PyStr)
    (hs : env.store key = some (lines, mtime))
    (hfr : (env.now - mtime) / 3600 ≤ env.ttlHours)
    (hrows : stripLines lines = c) (hne : c ≠ []) :
    readCachedUniverse env key = some c := by
  simp only [readCachedUniverse, hs, hrows]
  rw [if_pos hfr, if_neg hne]

/-- C7: if a resolution returns a non-empty list and a second call happens
while the cache entry backing that key is still within the TTL window, the
second call returns the identical list and attempts no live fetch — it is
served from the on-disk universe cache. -/
theorem c7_second_call_cached (env : UnivEnv) (name : PyStr) (now2 : ℚ)
    (lines : List PyStr) (m : ℚ)
    (h1 : (resolveUniverse env name).syms ≠ [])
    (h2 : (resolveUniverse env name).cacheAfter (pyLower (pyStrip name)) =
      some (lines, m))
    (h3 : (now2 - m) / 3600 ≤ env.ttlHours) :
    (resolveUniverse { env with
        store := (resolveUniverse env name).cacheAfter
        now := now2 } name).syms = (resolveUniverse env name).syms ∧
    (resolveUniverse { env with
        store := (resolveUniverse env name).cacheAfter
        now := now2 } name).liveUsed = false := by
  cases hrc : readCachedUniverse env (pyLower (pyStrip name)) with
  | some cached =>
    have ho1 : resolveUniverse env name =
        ⟨cached, env.store, false, false⟩ := by
      simp only [resolveUniverse, hrc]
    rw [ho1] at h1 h2 ⊢
    obtain ⟨lines0, mtime0, hst, _, hrows, hcne⟩ :=
      readCachedUniverse_some env _ cached hrc
    have h2c : env.store (pyLower (pyStrip name)) = some (lines, m) := h2
    rw [hst] at h2c
    simp only [Option.some.injEq, Prod.mk.injEq] at h2c
    obtain ⟨hl, hm⟩ := h2c
    have hrc2 : readCachedUniverse
        { env with store := env.store, now := now2 }
        (pyLower (pyStrip name)) = some cached := by
      refine readCachedUniverse_eq_some _ _ lines0 mtime0 cached hst ?_ hrows hcne
      show (now2 - mtime0) / 3600 ≤ env.ttlHours
      rw [← hm] at h3
      exact h3
    have hfin : resolveUniverse { env with store := env.store, now := now2 }
        name = ⟨cached, env.store, false, false⟩ := by
      simp only [resolveUniverse, hrc2]
    constructor
    · show (resolveUniverse { env with store := env.store, now := now2 }
        name).syms = cached
      rw [hfin]
    · show (resolveUniverse { env with store := env.store, now := now2 }
        name).liveUsed = false
      rw [hfin]
  | none =>
    obtain ⟨fetched, heq⟩ := resolveUniverse_miss env name hrc
    rw [heq] at h1 h2 ⊢
    obtain ⟨hw, hstore⟩ :=
      finishResolve_store env (pyLower (pyStrip name)) fetched h1
    rw [hstore] at h2
    simp only [Option.some.injEq, Prod.mk.injEq] at h2
    obtain ⟨hl, hm⟩ := h2
    have hstrip2 : stripLines
        (finishResolve env (pyLower (pyStrip name)) fetched).syms =
        (finishResolve env (pyLower (pyStrip name)) fetched).syms := by
      apply stripLines_eq_self
      intro x hx
      have hp := finishResolve_mem env _ fetched x hx
      exact ⟨hp.2.1, hp.2.2.2⟩
    have hrc2 : readCachedUniverse
        { env with
          store := (finishResolve env (pyLower (pyStrip name)) fetched).cacheAfter,
          now := now2 }
        (pyLower (pyStrip name)) =
        some (finishResolve env (pyLower (pyStrip name)) fetched).syms := by
      refine readCachedUniverse_eq_some _ _ _ env.now _ hstore ?_ hstrip2 h1
      show (now2 - env.now) / 3600 ≤ env.ttlHours
      rw [← hm] at h3
      exact h3
    have hfin : resolveUniverse
        { env with
          store := (finishResolve env (pyLower (pyStrip name)) fetched).cacheAfter,
          now := now2 } name =
        ⟨(finishResolve env (pyLower (pyStrip name)) fetched).syms,
         (finishResolve env (pyLower (pyStrip name)) fetched).cacheAfter,
         false, false⟩ := by
      simp only [resolveUniverse, hrc2]
    rw [hfin]
    exact ⟨rfl, rfl⟩

/-- Witness for C7 at a concrete fresh-cache-hit input. -/
theorem c7_witness :
    (resolveUniverse envLower ("k".data)).syms ≠ [] ∧
    (resolveUniverse envLower ("k".data)).cacheAfter (pyLower (pyStrip ("k".data))) =
      some ([("ab".data)], 0) ∧
    ((100 : ℚ) - 0) / 3600 ≤ envLower.ttlHours ∧
    ((resolveUniverse { envLower with
        store := (resolveUniverse envLower ("k".data)).cacheAfter
        now := 100 } ("k".data)).syms =
      (resolveUniverse envLower ("k".data)).syms ∧
     (resolveUniverse { envLower with
        store := (resolveUniverse envLower ("k".data)).cacheAfter
        now := 100 } ("k".data)).liveUsed = false) := by
  have hne : (resolveUniverse envLower ("k".data)).syms ≠ [] := by
    rw [resolveUniverse_envLower]
    decide
  have hst : (resolveUniverse envLower ("k".data)).cacheAfter
      (pyLower (pyStrip ("k".data))) = some ([("ab".data)], 0) := by
    rw [resolveUniverse_envLower]
    show envLower.store (pyLower (pyStrip ("k".data))) = some ([("ab".data)], 0)
    rw [show pyLower (pyStrip ("k".data)) = ("k".data) from by decide]
    rfl
  have hfr : ((100 : ℚ) - 0) / 3600 ≤ envLower.ttlHours := by
    norm_num [envLower]
  exact ⟨hne, hst, hfr,
    c7_second_call_cached envLower ("k".data) 100 [("ab".data)] 0 hne hst hfr⟩

end PortfolioScanner
